import Mathlib

/-!
# Verification of the Hierarchy Engine of the org-chart-generator repository

Shallow embedding of the repository's hierarchy engine:
* the edit-time validator (`HierarchyValidatorService` in
  `src/apps/api/src/services/hierarchy-validator.ts`, embedded in the
  services bundle): `validateHierarchyUpdate`, `checkCircularRelationship`,
  `isSubordinate`;
* the ingestion engine (`AIParserService` in
  `src/apps/api/src/services/ai-parser.ts`): `identifyColumns`,
  `generateHierarchy`, `detectCircularReporting`, `validateStructure`;
* the layout engine (`calculatePositions` in the chart-viewer component).

Modelling conventions:
* Cell values of the input grid are modelled as strings (the source coerces
  every cell with `String(x)` before use).
* JavaScript numbers used for confidence scores and layout coordinates are
  modelled as rationals (`ℚ`); no comparison made by the source or claimed by
  the spec sits on a float-rounding boundary.
* Asynchronous database calls are modelled as functions returning
  `Except Unit α`: `.error ()` models a rejected promise (a thrown fault),
  `.ok v` models a resolved value.
* Recursions whose termination rests on a visited set are given explicit
  fuel, always at least the number of reachable records plus one, which the
  visited-set argument of the source makes sufficient.
-/

namespace OrgChart

/-! ## Shared data model (`packages/shared/index.ts`)

`Organization.createdAt` (a JS `Date`) is irrelevant to every claim and is
omitted.  `Employee.customFields` is irrelevant to the validator and omitted
from this record (the ingestion-side `ParsedEmployee` below keeps its own
custom fields). -/

structure Employee where
  id : String
  name : String
  title : String
  organizationId : String
  managerId : Option String
  deriving Repr, DecidableEq

structure Organization where
  id : String
  name : String
  userId : String
  deriving Repr, DecidableEq

/-- The three database operations used by `HierarchyValidatorService`.
`.error ()` models a database fault (rejected promise). -/
structure DatabaseService where
  getEmployee : String → Except Unit (Option Employee)
  getOrganization : String → Except Unit (Option Organization)
  getEmployeesByOrganization : String → Except Unit (List Employee)

structure HierarchyValidationResult where
  isValid : Bool
  error : Option String
  errorCode : Option String
  deriving Repr, DecidableEq

/-! ## Edit-mode validator (`hierarchy-validator.ts`) -/

/-- The JS `Map` built by `checkCircularRelationship` via repeated `set`:
a later entry with the same id overwrites an earlier one, hence the lookup
scans the reversed list. -/
def mapGet (employees : List Employee) (k : String) : Option Employee :=
  employees.reverse.find? (fun e => e.id = k)

/-- `isSubordinate(managerId, potentialSubordinateId, employeeMap, visited)`:
walks the manager chain upward from `potentialSubordinateId`, guarded by a
visited set.  The source recursion terminates because every hop after the
first visits a fresh key of the map; fuel `employeeMap.length + 1` is
therefore sufficient (the fuel-0 branch is unreachable).  JS truthiness of
`!employee.managerId` makes an empty-string manager id terminate the walk. -/
def isSubordinate (employeeMap : List Employee) :
    Nat → String → String → List String → Bool
  | 0, _, _, _ => false
  | fuel + 1, managerId, potentialSubordinateId, visited =>
    if potentialSubordinateId ∈ visited then
      false
    else
      match mapGet employeeMap potentialSubordinateId with
      | none => false
      | some employee =>
        match employee.managerId with
        | none => false
        | some m =>
          if m = "" then false
          else if m = managerId then true
          else isSubordinate employeeMap fuel managerId m
                 (potentialSubordinateId :: visited)

/-- `checkCircularRelationship`: fetches the organization's employee set and
asks whether `newManagerId` is a (transitive) subordinate of `employeeId`.
Any fault during the fetch is caught and reported as `true`
("circular detected" as a safety measure). -/
def checkCircularRelationship (db : DatabaseService)
    (employeeId newManagerId organizationId : String) : Bool :=
  match db.getEmployeesByOrganization organizationId with
  | .error _ => true
  | .ok allEmployees =>
    isSubordinate allEmployees (allEmployees.length + 1) employeeId
      newManagerId []

/-- The body of `validateHierarchyUpdate` before its outer `try/catch`. -/
def validateHierarchyUpdateAux (db : DatabaseService)
    (employeeId newManagerId userId : String) :
    Except Unit HierarchyValidationResult := do
  -- 1. employee exists
  let employee? ← db.getEmployee employeeId
  match employee? with
  | none =>
    return ⟨false, some "Employee not found", some "EMPLOYEE_NOT_FOUND"⟩
  | some employee => do
    -- 2. new manager exists
    let newManager? ← db.getEmployee newManagerId
    match newManager? with
    | none =>
      return ⟨false, some "New manager not found", some "MANAGER_NOT_FOUND"⟩
    | some newManager =>
      -- 3. same organization
      if employee.organizationId ≠ newManager.organizationId then
        return ⟨false,
          some "Employee and manager must belong to the same organization",
          some "DIFFERENT_ORGANIZATIONS"⟩
      else do
        -- 4. organization exists and belongs to the authenticated user
        let organization? ← db.getOrganization employee.organizationId
        if (match organization? with
            | none => true
            | some organization => organization.userId ≠ userId) then
          return ⟨false, some "Unauthorized access to organization",
            some "UNAUTHORIZED_ACCESS"⟩
        -- 5. not their own manager
        else if employeeId = newManagerId then
          return ⟨false, some "Employee cannot be their own manager",
            some "SELF_MANAGEMENT"⟩
        -- 6. no circular reporting relationship
        else if checkCircularRelationship db employeeId newManagerId
            employee.organizationId then
          return ⟨false,
            some "This change would create a circular reporting relationship",
            some "CIRCULAR_RELATIONSHIP"⟩
        else
          return ⟨true, none, none⟩

/-- `validateHierarchyUpdate` with its outer `catch`: any uncaught fault
yields `INTERNAL_ERROR`. -/
def validateHierarchyUpdate (db : DatabaseService)
    (employeeId newManagerId userId : String) : HierarchyValidationResult :=
  match validateHierarchyUpdateAux db employeeId newManagerId userId with
  | .ok r => r
  | .error _ =>
    ⟨false, some "Internal validation error", some "INTERNAL_ERROR"⟩

/-- A fault-free database: every call resolves, with values drawn from the
three underlying pure functions. -/
def pureDb (empF : String → Option Employee)
    (orgF : String → Option Organization)
    (listF : String → List Employee) : DatabaseService :=
  ⟨fun k => .ok (empF k), fun k => .ok (orgF k), fun k => .ok (listF k)⟩

/-! ### Spec-side description of edge-mode validation (claim C1) -/

/-- Spec side: return the error code of the first failing check. -/
def firstFailingCheck : List (Bool × String) → Option String
  | [] => none
  | (failed, code) :: rest => if failed then some code else firstFailingCheck rest

/-- Spec side, written from the spec's §4.3 edge-mode list: the ordered
checks for an edit request, each paired with its error code.  Checks that
depend on data earlier checks would have rejected are `false` (not failing)
when that data is absent; `firstFailingCheck` never reaches them in that
case.  The subordinate test is, in the spec's words, the upward walk from
`newManagerId` with a visited-set guard, i.e. `isSubordinate`. -/
def specEdgeChecks (empF : String → Option Employee)
    (orgF : String → Option Organization)
    (listF : String → List Employee)
    (employeeId newManagerId userId : String) : List (Bool × String) :=
  [ ((empF employeeId).isNone, "EMPLOYEE_NOT_FOUND"),
    ((empF newManagerId).isNone, "MANAGER_NOT_FOUND"),
    (match empF employeeId, empF newManagerId with
     | some e, some m => decide (e.organizationId ≠ m.organizationId)
     | _, _ => false,
     "DIFFERENT_ORGANIZATIONS"),
    (match empF employeeId with
     | some e =>
       match orgF e.organizationId with
       | none => true
       | some o => decide (o.userId ≠ userId)
     | none => false,
     "UNAUTHORIZED_ACCESS"),
    (decide (employeeId = newManagerId), "SELF_MANAGEMENT"),
    (match empF employeeId with
     | some e =>
       isSubordinate (listF e.organizationId)
         ((listF e.organizationId).length + 1) employeeId newManagerId []
     | none => false,
     "CIRCULAR_RELATIONSHIP") ]

/-- C1: over a fault-free database, `validateHierarchyUpdate` returns the
error code of the first failing check of the spec's ordered list, and is
valid exactly when no check fails. -/
theorem validateHierarchyUpdate_firstFailing
    (empF : String → Option Employee) (orgF : String → Option Organization)
    (listF : String → List Employee) (employeeId newManagerId userId : String) :
    (validateHierarchyUpdate (pureDb empF orgF listF) employeeId newManagerId
        userId).errorCode =
      firstFailingCheck (specEdgeChecks empF orgF listF employeeId newManagerId
        userId) ∧
    (validateHierarchyUpdate (pureDb empF orgF listF) employeeId newManagerId
        userId).isValid =
      (firstFailingCheck (specEdgeChecks empF orgF listF employeeId newManagerId
        userId)).isNone := by
  rcases h1 : empF employeeId with _ | employee
  · simp [validateHierarchyUpdate, validateHierarchyUpdateAux, pureDb,
      specEdgeChecks, firstFailingCheck, checkCircularRelationship, h1,
      bind, Except.bind, pure, Except.pure]
  · rcases h2 : empF newManagerId with _ | newManager
    · simp [validateHierarchyUpdate, validateHierarchyUpdateAux, pureDb,
        specEdgeChecks, firstFailingCheck, checkCircularRelationship, h1, h2,
        bind, Except.bind, pure, Except.pure]
    · by_cases h4 : employee.organizationId = newManager.organizationId
      · rcases h3 : orgF newManager.organizationId with _ | org
        · simp [validateHierarchyUpdate, validateHierarchyUpdateAux, pureDb,
            specEdgeChecks, firstFailingCheck, checkCircularRelationship,
            h1, h2, h3, h4, bind, Except.bind, pure, Except.pure]
        · by_cases h5 : org.userId = userId
          · by_cases h6 : employeeId = newManagerId
            · simp [validateHierarchyUpdate, validateHierarchyUpdateAux,
                pureDb, specEdgeChecks, firstFailingCheck,
                checkCircularRelationship, h1, h2, h3, h4, h5, h6,
                bind, Except.bind, pure, Except.pure]
            · by_cases h7 : isSubordinate (listF newManager.organizationId)
                  ((listF newManager.organizationId).length + 1) employeeId
                  newManagerId [] = true <;>
                simp [validateHierarchyUpdate, validateHierarchyUpdateAux,
                  pureDb, specEdgeChecks, firstFailingCheck,
                  checkCircularRelationship, h1, h2, h3, h4, h5, h6, h7,
                  bind, Except.bind, pure, Except.pure]
          · simp [validateHierarchyUpdate, validateHierarchyUpdateAux,
              pureDb, specEdgeChecks, firstFailingCheck,
              checkCircularRelationship, h1, h2, h3, h4, h5,
              bind, Except.bind, pure, Except.pure]
      · simp [validateHierarchyUpdate, validateHierarchyUpdateAux, pureDb,
          specEdgeChecks, firstFailingCheck, checkCircularRelationship,
          h1, h2, h4, bind, Except.bind, pure, Except.pure]

/-! ### Faulting databases (claims C2 and C3) -/

/-- A database on which every call faults (every promise rejects). -/
def throwingDb : DatabaseService :=
  ⟨fun _ => .error (), fun _ => .error (), fun _ => .error ()⟩

/-- A database whose employee and organization lookups resolve but whose
organization-employee-set fetch (the data retrieval of the cycle check)
faults. -/
def listFaultDb (empF : String → Option Employee)
    (orgF : String → Option Organization) : DatabaseService :=
  ⟨fun k => .ok (empF k), fun k => .ok (orgF k), fun _ => .error ()⟩

/-- A database with no records at all (every lookup resolves to nothing). -/
def emptyDb : DatabaseService :=
  pureDb (fun _ => none) (fun _ => none) (fun _ => [])

/-- C2, counterexample: when the employee lookup itself faults (a fault
while loading data for step 1), `validateHierarchyUpdate` returns
`INTERNAL_ERROR`, not `CIRCULAR_RELATIONSHIP`. -/
theorem validateHierarchyUpdate_lookup_fault_not_circular :
    (validateHierarchyUpdate throwingDb "emp1" "manager2" "user1").errorCode
        = some "INTERNAL_ERROR" ∧
      (validateHierarchyUpdate throwingDb "emp1" "manager2" "user1").errorCode
        ≠ some "CIRCULAR_RELATIONSHIP" := by
  constructor
  · rfl
  · decide

/-- C2, amended: when the employee, manager and organization lookups resolve
and steps 1–5 pass, a fault while fetching the organization's employee set
for the cycle check is treated as `CIRCULAR_RELATIONSHIP` (fail-closed). -/
theorem validateHierarchyUpdate_cycle_fetch_fault_circular
    (empF : String → Option Employee) (orgF : String → Option Organization)
    (employeeId newManagerId userId : String)
    (employee newManager : Employee) (organization : Organization)
    (h1 : empF employeeId = some employee)
    (h2 : empF newManagerId = some newManager)
    (h3 : employee.organizationId = newManager.organizationId)
    (h4 : orgF employee.organizationId = some organization)
    (h5 : organization.userId = userId)
    (h6 : employeeId ≠ newManagerId) :
    validateHierarchyUpdate (listFaultDb empF orgF) employeeId newManagerId
        userId =
      ⟨false, some "This change would create a circular reporting relationship",
        some "CIRCULAR_RELATIONSHIP"⟩ := by
  have h4' : orgF newManager.organizationId = some organization := h3 ▸ h4
  simp [validateHierarchyUpdate, validateHierarchyUpdateAux, listFaultDb,
    checkCircularRelationship, h1, h2, h3, h4', h5, h6,
    bind, Except.bind, pure, Except.pure]

/-- Concrete records used by the witnesses below (the records of the
validator's own test suite). -/
def empJohn : Employee :=
  ⟨"emp1", "John Doe", "Software Engineer", "org1", some "manager1"⟩

def mgrJane : Employee :=
  ⟨"manager2", "Jane Smith", "Senior Manager", "org1", none⟩

def orgTest : Organization := ⟨"org1", "Test Organization", "user1"⟩

def demoEmpF : String → Option Employee := fun k =>
  if k = "emp1" then some empJohn
  else if k = "manager2" then some mgrJane else none

def demoOrgF : String → Option Organization := fun k =>
  if k = "org1" then some orgTest else none

/-- Witness for the amended C2 at a concrete input. -/
theorem validateHierarchyUpdate_cycle_fetch_fault_circular_witness :
    validateHierarchyUpdate (listFaultDb demoEmpF demoOrgF) "emp1" "manager2"
        "user1" =
      ⟨false, some "This change would create a circular reporting relationship",
        some "CIRCULAR_RELATIONSHIP"⟩ :=
  validateHierarchyUpdate_cycle_fetch_fault_circular demoEmpF demoOrgF
    "emp1" "manager2" "user1" empJohn mgrJane orgTest rfl rfl rfl rfl rfl
    (by decide)

/-- C3, counterexample: an edit request with `employeeId == newManagerId`
does not return `SELF_MANAGEMENT` when the employee record does not exist;
`EMPLOYEE_NOT_FOUND` is returned instead. -/
theorem validateHierarchyUpdate_self_missing_employee_not_self :
    (validateHierarchyUpdate emptyDb "emp1" "emp1" "user1").errorCode
        = some "EMPLOYEE_NOT_FOUND" ∧
      (validateHierarchyUpdate emptyDb "emp1" "emp1" "user1").errorCode
        ≠ some "SELF_MANAGEMENT" := by
  constructor
  · rfl
  · decide

/-- C3, amended: an edit request with `employeeId == newManagerId` returns
`SELF_MANAGEMENT` provided the employee record exists and its organization
record exists and is owned by the requesting user; when one of the earlier
checks fails, that earlier check's error code is returned instead. -/
theorem validateHierarchyUpdate_self_management
    (empF : String → Option Employee) (orgF : String → Option Organization)
    (listF : String → List Employee) (employeeId userId : String)
    (employee : Employee) (organization : Organization)
    (h1 : empF employeeId = some employee)
    (h2 : orgF employee.organizationId = some organization)
    (h3 : organization.userId = userId) :
    validateHierarchyUpdate (pureDb empF orgF listF) employeeId employeeId
        userId =
      ⟨false, some "Employee cannot be their own manager",
        some "SELF_MANAGEMENT"⟩ := by
  simp [validateHierarchyUpdate, validateHierarchyUpdateAux, pureDb,
    h1, h2, h3, bind, Except.bind, pure, Except.pure]

/-- Witness for the amended C3 at a concrete input. -/
theorem validateHierarchyUpdate_self_management_witness :
    validateHierarchyUpdate (pureDb demoEmpF demoOrgF (fun _ => []))
        "emp1" "emp1" "user1" =
      ⟨false, some "Employee cannot be their own manager",
        some "SELF_MANAGEMENT"⟩ :=
  validateHierarchyUpdate_self_management demoEmpF demoOrgF (fun _ => [])
    "emp1" "user1" empJohn orgTest rfl rfl rfl

/-! ## String primitives

`String.trim`, `String.toLower`, `String.startsWith` and `String.endsWith`
are modelled over the character list of the string (JS semantics on the
ASCII inputs at hand), so that concrete instances evaluate. -/

/-- JS `String.prototype.trim`. -/
def jsTrim (s : String) : String :=
  String.mk (((s.data.dropWhile Char.isWhitespace).reverse.dropWhile
    Char.isWhitespace).reverse)

/-- JS `String.prototype.toLowerCase`. -/
def jsToLower (s : String) : String := String.mk (s.data.map Char.toLower)

/-! ## Column identification (`AIParserService.identifyColumns`)

Header patterns are case-insensitive anchored regexes over the trimmed
header; `^a.*b$` is equivalent to: starts with `a`, ends with `b`, and is at
least `|a| + |b|` long. -/

structure ColumnIdentificationResult where
  nameColumn : Option Nat
  managerColumn : Option Nat
  titleColumn : Option Nat
  confidence : ℚ
  analysis : String
  deriving Repr, DecidableEq

/-- `/^a.*b$/` on an already-lowercased string. -/
def dotStarMatch (a b s : String) : Bool :=
  a.data.isPrefixOf s.data && b.data.isSuffixOf s.data
    && a.length + b.length ≤ s.length

/-- `NAME_PATTERNS` (first-match-wins inside one header is irrelevant: only
"some pattern matches" is observable). -/
def matchesNamePattern (header : String) : Bool :=
  let s := jsToLower header
  s = "name" || dotStarMatch "employee" "name" s || dotStarMatch "full" "name" s
    || dotStarMatch "first" "name" s || s = "employee" || s = "person"
    || s = "staff"

/-- `MANAGER_PATTERNS`. -/
def matchesManagerPattern (header : String) : Bool :=
  let s := jsToLower header
  s = "manager" || dotStarMatch "manager" "name" s || s = "supervisor"
    || s = "boss" || dotStarMatch "reports" "to" s
    || dotStarMatch "direct" "manager" s || dotStarMatch "line" "manager" s

/-- `TITLE_PATTERNS`. -/
def matchesTitlePattern (header : String) : Bool :=
  let s := jsToLower header
  s = "title" || dotStarMatch "job" "title" s || s = "position" || s = "role"
    || s = "designation" || s = "rank" || s = "level"

/-- One header scan of `identifyColumns`: first header whose trimmed text
matches a pattern, with its +0.4 confidence and analysis fragment. -/
def patternScan (headers : List String) (p : String → Bool) (label : String) :
    Option Nat × ℚ × String :=
  match headers.findIdx? (fun h => p (jsTrim h)) with
  | some i =>
    (some i, 4/10,
      "Found " ++ label ++ " column \"" ++ jsTrim (headers.getD i "") ++
        "\" at index " ++ toString i ++ ". ")
  | none => (none, 0, "")

/-- `[a-zA-Z\s'-]` of `calculateNameScore`'s name regex. -/
def isNameChar (c : Char) : Bool :=
  c.isAlpha || c.isWhitespace || c = '\'' || c = '-'

/-- The penalty character class of `calculateNameScore`. -/
def isPenaltyChar (c : Char) : Bool :=
  "0123456789@#$%^&*()_+=[]\x7b\x7d|;:,.<>?/~`".toList.contains c

/-- The per-value contribution inside `calculateNameScore`'s loop. -/
def nameScoreOne (value : String) : ℚ :=
  (if value.toList.all isNameChar && value.toList ≠ [] && value.length > 1
    then 3/10 else 0)
    + (if value.toList.contains ' ' then 2/10 else 0)
    - (if value.toList.any isPenaltyChar then 1/10 else 0)

/-- `calculateNameScore`. -/
def calculateNameScore (values : List String) : ℚ :=
  let validValues := values.filter (fun v => v.length > 0)
  if validValues.length = 0 then 0
  else
    max 0 (min 1 ((validValues.map nameScoreOne).sum / validValues.length))

/-- `calculateManagerScore`.  When there are no non-empty values the JS
`duplicateRatio` is `NaN` and the `< 0.8` comparison is false, hence the
explicit emptiness guard on the bonus. -/
def calculateManagerScore (values : List String) : ℚ :=
  let nameScore := calculateNameScore values
  let valid := values.filter (fun v => v.length > 0)
  let duplicateRatio := ((valid.dedup.length : ℚ)) / valid.length
  let managerBonus :=
    if valid.length ≠ 0 ∧ duplicateRatio < 8/10 then (2 : ℚ)/10 else 0
  min 1 (nameScore + managerBonus)

/-- One iteration of `applyFallbackLogic`'s column loop.  Inside a single
iteration the manager test compares against the possibly-just-updated name
column, as the source's sequential assignment does. -/
def fallbackStep (sampleRows : List (List String))
    (acc : Option Nat × Option Nat) (colIndex : Nat) :
    Option Nat × Option Nat :=
  let values := sampleRows.map (fun row => jsTrim (row.getD colIndex ""))
  let nameColumn :=
    if calculateNameScore values > 6/10 ∧ acc.1 = none then some colIndex
    else acc.1
  let managerColumn :=
    if calculateManagerScore values > 1/2 ∧ acc.2 = none ∧
        nameColumn ≠ some colIndex then some colIndex
    else acc.2
  (nameColumn, managerColumn)

/-- `applyFallbackLogic`: content-based fallback on up to the first five
data rows.  Its `titleColumn` is declared and returned but never assigned,
hence always `none`. -/
def applyFallbackLogic (data : List (List String)) :
    Option Nat × Option Nat × Option Nat :=
  if data.length < 2 then (none, none, none)
  else
    let headers := data.headD []
    let sampleRows := (data.drop 1).take 5
    let r := (List.range headers.length).foldl (fallbackStep sampleRows)
      (none, none)
    (r.1, r.2, none)

/-- `identifyColumns`.  The source calls `applyFallbackLogic` only when some
target is unresolved; the call is pure, so evaluating it unconditionally and
using its result only in the unresolved cases is equivalent. -/
def identifyColumns (data : List (List String)) : ColumnIdentificationResult :=
  if data.isEmpty then ⟨none, none, none, 0, "No data provided"⟩
  else
    let headers := data.headD []
    if headers.isEmpty then ⟨none, none, none, 0, "No headers found"⟩
    else
      let (n, cn, an) := patternScan headers matchesNamePattern "name"
      let (m, cm, am) := patternScan headers matchesManagerPattern "manager"
      let (t, ct, at') := patternScan headers matchesTitlePattern "title"
      let fb := applyFallbackLogic data
      let (nameColumn, fn, ha) :=
        match n with
        | some i => (some i, (0 : ℚ), "")
        | none =>
          match fb.1 with
          | some j =>
            (some j, (2 : ℚ)/10,
              "Fallback identified name column at index " ++ toString j ++ ". ")
          | none => (none, (0 : ℚ), "")
      let (managerColumn, fm, hb) :=
        match m with
        | some i => (some i, (0 : ℚ), "")
        | none =>
          match fb.2.1 with
          | some j =>
            (some j, (2 : ℚ)/10,
              "Fallback identified manager column at index " ++ toString j
                ++ ". ")
          | none => (none, (0 : ℚ), "")
      let (titleColumn, ft, hc) :=
        match t with
        | some i => (some i, (0 : ℚ), "")
        | none =>
          match fb.2.2 with
          | some j =>
            (some j, (2 : ℚ)/10,
              "Fallback identified title column at index " ++ toString j
                ++ ". ")
          | none => (none, (0 : ℚ), "")
      let bonus : ℚ :=
        if nameColumn.isSome ∧ managerColumn.isSome then 2/10 else 0
      ⟨nameColumn, managerColumn, titleColumn,
        min (cn + cm + ct + fn + fm + ft + bonus) 1,
        an ++ am ++ at' ++ ha ++ hb ++ hc⟩

/-- C10: any grid whose header row is `["Name","Title","Manager"]` resolves
name column 0 and manager column 2 with confidence above 0.5 and, after
clamping, at most 1. -/
theorem identifyColumns_standard_header (rest : List (List String)) :
    (identifyColumns (["Name", "Title", "Manager"] :: rest)).nameColumn
        = some 0 ∧
      (identifyColumns (["Name", "Title", "Manager"] :: rest)).managerColumn
        = some 2 ∧
      (identifyColumns (["Name", "Title", "Manager"] :: rest)).confidence
        > 1/2 ∧
      (identifyColumns (["Name", "Title", "Manager"] :: rest)).confidence
        ≤ 1 := by
  have hn : List.findIdx? (fun h => matchesNamePattern (jsTrim h))
      ["Name", "Title", "Manager"] = some 0 := by decide
  have hm : List.findIdx? (fun h => matchesManagerPattern (jsTrim h))
      ["Name", "Title", "Manager"] = some 2 := by decide
  have ht : List.findIdx? (fun h => matchesTitlePattern (jsTrim h))
      ["Name", "Title", "Manager"] = some 1 := by decide
  simp [identifyColumns, patternScan, hn, hm, ht]
  norm_num

/-! ## Tree builder (`AIParserService.generateHierarchy`)

The grid is `List (List String)`; `nameColumn : Nat`, `managerColumn : Int`
(the caller passes `-1` for "no manager column"; a negative index reads as
an absent cell), `titleColumn : Option Nat` (`null` allowed). -/

structure ParsedEmployee where
  name : String
  title : Option String
  manager : Option String
  customFields : List (String × String)
  deriving Repr, DecidableEq

structure HierarchyNode where
  employee : ParsedEmployee
  directReports : List String
  managerId : Option String
  deriving Repr, DecidableEq

structure HierarchicalStructure where
  employees : List ParsedEmployee
  hierarchy : List (String × HierarchyNode)
  rootEmployees : List String
  orphanedEmployees : List String
  errors : List String
  deriving Repr, DecidableEq

/-- `row[j]` for a possibly negative JS index: a negative index reads
`undefined`, which `String(x || '')` turns into the empty string. -/
def cellAtInt (row : List String) (j : Int) : String :=
  if j < 0 then "" else row.getD j.toNat ""

/-- JS object-property assignment `o[k] = v`: overwrite an existing key in
place, else append. -/
def assocSet (l : List (String × String)) (k v : String) :
    List (String × String) :=
  if l.any (fun p => p.1 = k) then
    l.map (fun p => if p.1 = k then (k, v) else p)
  else l ++ [(k, v)]

/-- `managerToEmployees[managerName].push(employeeName)`, creating the entry
when absent. -/
def mteAdd : List (String × List String) → String → String →
    List (String × List String)
  | [], m, n => [(m, [n])]
  | (k, v) :: rest, m, n =>
    if k = m then (k, v ++ [n]) :: rest else (k, v) :: mteAdd rest m n

/-- Lookup in `managerToEmployees` (unique keys by construction). -/
def mteLookup (mte : List (String × List String)) (k : String) : List String :=
  ((mte.find? (fun p => p.1 = k)).map Prod.snd).getD []

/-- Lookup in the hierarchy object. -/
def hfind (h : List (String × HierarchyNode)) (k : String) :
    Option HierarchyNode :=
  (h.find? (fun p => p.1 = k)).map Prod.snd

/-- The custom-field extraction loop of the first pass. -/
def rowCustomFields (headers row : List String) (nameColumn : Nat)
    (managerColumn : Int) (titleColumn : Option Nat) :
    List (String × String) :=
  (List.range row.length).foldl (fun acc j =>
    if j ≠ nameColumn ∧ (j : Int) ≠ managerColumn ∧ titleColumn ≠ some j ∧
        headers.getD j "" ≠ "" then
      let fieldName := jsTrim (headers.getD j "")
      let fieldValue :=
        if row.getD j "" ≠ "" then jsTrim (row.getD j "") else ""
      if fieldName ≠ "" ∧ fieldValue ≠ "" then assocSet acc fieldName fieldValue
      else acc
    else acc) []

/-- The employee-building state of the first pass of `generateHierarchy`
(`allManagerNames` of the source is written but never read and is omitted).
The error list is threaded separately by `firstPass`; the rows' effect on
this core state does not depend on it. -/
structure ParseCore where
  employees : List ParsedEmployee
  allEmployeeNames : List String
  managerToEmployees : List (String × List String)
  deriving Repr, DecidableEq

/-- The trimmed employee name carried by a data row. -/
def rowName (row : List String) (nameColumn : Nat) : String :=
  jsTrim (row.getD nameColumn "")

/-- Effect of one data row on the core state (skips on empty or duplicate
name, otherwise records the employee, its name, and its manager link). -/
def processRowCore (headers row : List String) (nameColumn : Nat)
    (managerColumn : Int) (titleColumn : Option Nat) (s : ParseCore) :
    ParseCore :=
  let employeeName := rowName row nameColumn
  let managerName := jsTrim (cellAtInt row managerColumn)
  if employeeName = "" then s
  else if employeeName ∈ s.allEmployeeNames then s
  else
    let title := titleColumn.map (fun t => jsTrim (row.getD t ""))
    let employee : ParsedEmployee :=
      ⟨employeeName,
        match title with
        | some t => if t = "" then none else some t
        | none => none,
        if managerName = "" then none else some managerName,
        rowCustomFields headers row nameColumn managerColumn titleColumn⟩
    ⟨s.employees ++ [employee], s.allEmployeeNames ++ [employeeName],
      if managerName = "" then s.managerToEmployees
      else mteAdd s.managerToEmployees managerName employeeName⟩

/-- The duplicate-name error string of the first pass. -/
def dupMsg (rowNum : Nat) (x : String) : String :=
  "Row " ++ toString rowNum ++ ": Duplicate employee name \"" ++ x ++ "\""

/-- The empty-name error string of the first pass. -/
def emptyMsg (rowNum : Nat) : String :=
  "Row " ++ toString rowNum ++ ": Empty employee name"

/-- Error(s) contributed by one data row (index `i` into the data rows;
spreadsheet row number `i + 2`, the header being row 1). -/
def processRowErr (row : List String) (nameColumn : Nat) (i : Nat)
    (names : List String) : List String :=
  let employeeName := rowName row nameColumn
  if employeeName = "" then [emptyMsg (i + 2)]
  else if employeeName ∈ names then [dupMsg (i + 2) employeeName]
  else []

/-- First pass of `generateHierarchy` over the data rows. -/
def firstPass (headers : List String) (nameColumn : Nat) (managerColumn : Int)
    (titleColumn : Option Nat) :
    List (List String) → Nat → ParseCore → ParseCore × List String
  | [], _, s => (s, [])
  | row :: rows, i, s =>
    let errs := processRowErr row nameColumn i s.allEmployeeNames
    let r := firstPass headers nameColumn managerColumn titleColumn rows
      (i + 1) (processRowCore headers row nameColumn managerColumn titleColumn s)
    (r.1, errs ++ r.2)

/-- Second pass: `hierarchy[employee.name] = {employee, directReports,
managerId}` in employee order (names are unique at this point). -/
def mkHierarchy (core : ParseCore) : List (String × HierarchyNode) :=
  core.employees.map (fun e =>
    (e.name, ⟨e, mteLookup core.managerToEmployees e.name, e.manager⟩))

/-- Root/orphan scan: an employee with no manager is a root; one whose
manager is not a parsed employee name is also pushed to the roots and
contributes an orphan error. -/
def rootsAndOrphanErrors (names : List String) :
    List ParsedEmployee → List String × List String
  | [] => ([], [])
  | e :: rest =>
    let r := rootsAndOrphanErrors names rest
    match e.manager with
    | none => (e.name :: r.1, r.2)
    | some m =>
      if m ∈ names then r
      else
        (e.name :: r.1,
          ("Employee \"" ++ e.name ++ "\" has manager \"" ++ m ++
            "\" who is not in the employee list") :: r.2)

/-! ### Cycle detection (`detectCircularReporting`) -/

structure DfsState where
  visited : List String
  recStack : List String
  errors : List String
  deriving Repr, DecidableEq

/-- The `dfs` closure of `detectCircularReporting`, walking the manager
chain upward.  The recursion depth is bounded by the number of distinct
hierarchy keys plus one (each non-returning call pushes a fresh key onto
the visited set), so fuel `h.length + 1` is sufficient; the fuel-0 branch
appends a sentinel so that fuel exhaustion would be observable in any
computed result. -/
def dfsCycle (h : List (String × HierarchyNode)) :
    Nat → String → List String → DfsState → DfsState
  | 0, _, _, s => ⟨s.visited, s.recStack, s.errors ++ ["FUEL EXHAUSTED"]⟩
  | fuel + 1, employeeName, path, s =>
    if employeeName ∈ s.recStack then
      ⟨s.visited, s.recStack,
        s.errors ++ ["Circular reporting detected: " ++
          String.intercalate " -> " path ++ " -> " ++ employeeName]⟩
    else if employeeName ∈ s.visited then s
    else
      let s1 : DfsState :=
        ⟨employeeName :: s.visited, employeeName :: s.recStack, s.errors⟩
      let s2 :=
        match hfind h employeeName with
        | some node =>
          match node.managerId with
          | some m =>
            if m ≠ "" ∧ (hfind h m).isSome then
              dfsCycle h fuel m (path ++ [employeeName]) s1
            else s1
          | none => s1
        | none => s1
      ⟨s2.visited, s2.recStack.erase employeeName, s2.errors⟩

/-- The driver loop of `detectCircularReporting` over the hierarchy keys. -/
def dfsLoop (h : List (String × HierarchyNode)) :
    List String → DfsState → DfsState
  | [], s => s
  | k :: ks, s =>
    dfsLoop h ks (if k ∈ s.visited then s else dfsCycle h (h.length + 1) k [] s)

/-- `detectCircularReporting(hierarchy, errors)`: returns the error list
after appending one error per detected cycle. -/
def detectCircularReporting (h : List (String × HierarchyNode))
    (errors : List String) : List String :=
  (dfsLoop h (h.map Prod.fst) ⟨[], [], errors⟩).errors

/-- `generateHierarchy`. `orphanedEmployees` is declared by the source and
returned, but nothing is ever pushed onto it. -/
def generateHierarchy (data : List (List String)) (nameColumn : Nat)
    (managerColumn : Int) (titleColumn : Option Nat) : HierarchicalStructure :=
  let headers := data.headD []
  let dataRows := data.drop 1
  let r := firstPass headers nameColumn managerColumn titleColumn dataRows 0
    ⟨[], [], []⟩
  let hierarchy := mkHierarchy r.1
  let ro := rootsAndOrphanErrors r.1.allEmployeeNames r.1.employees
  ⟨r.1.employees, hierarchy, ro.1, [],
    detectCircularReporting hierarchy (r.2 ++ ro.2)⟩

/-- `statistics.orphanedEmployees` of the ingestion output
(`parseUploadedFile`): the length of the orphan list of the freshly built
structure. -/
def ingestionOrphanedStatistic (data : List (List String)) (nameColumn : Nat)
    (managerColumn : Int) (titleColumn : Option Nat) : Nat :=
  (generateHierarchy data nameColumn managerColumn titleColumn).orphanedEmployees.length

/-- `validateStructure`: structural issues plus the accumulated errors;
valid iff no issue. -/
def validateStructureIssues (st : HierarchicalStructure) : List String :=
  (if 0 < (st.employees.filter
      (fun e => e.name = "" || jsTrim e.name = "")).length then
    [toString (st.employees.filter
        (fun e => e.name = "" || jsTrim e.name = "")).length ++
      " employees have empty names"]
  else []) ++
  (st.hierarchy.map (fun p =>
    (p.2.directReports.filter (fun dr => (hfind st.hierarchy dr).isNone)).map
      (fun dr =>
        "Employee \"" ++ p.1 ++ "\" has direct report \"" ++ dr ++
          "\" who doesn't exist in hierarchy") ++
    (match p.2.managerId with
     | none => []
     | some m =>
       if m = "" then []     -- JS truthiness of `hierarchyNode.managerId`
       else
       match hfind st.hierarchy m with
       | none =>
         ["Employee \"" ++ p.1 ++ "\" has manager \"" ++ m ++
           "\" who doesn't exist in hierarchy"]
       | some mgr =>
         if p.1 ∈ mgr.directReports then []
         else
           ["Manager \"" ++ m ++ "\" doesn't list \"" ++ p.1 ++
             "\" as a direct report"]))).flatten ++
  st.errors

def validateStructure (st : HierarchicalStructure) : Bool × List String :=
  ((validateStructureIssues st).length = 0, validateStructureIssues st)

/-- C5: a two-employee hierarchy in which A's manager is B and B's manager
is A yields exactly one cycle error, whose message gives the full path
`A -> B -> A`. -/
theorem detectCircularReporting_direct_cycle (a b : String)
    (ea eb : ParsedEmployee) (ra rb : List String) (errs : List String)
    (hab : a ≠ b) (ha : a ≠ "") (hb : b ≠ "") :
    detectCircularReporting [(a, ⟨ea, ra, some b⟩), (b, ⟨eb, rb, some a⟩)]
        errs =
      errs ++ ["Circular reporting detected: " ++ a ++ " -> " ++ b ++ " -> "
        ++ a] := by
  simp [detectCircularReporting, dfsLoop, dfsCycle, hfind, List.find?,
    hab, Ne.symm hab, ha, hb, String.intercalate, String.intercalate.go,
    String.append_assoc]

/-! ### Bidirectional consistency of `generateHierarchy` (claim C7) -/

theorem mteLookup_mteAdd_self (mte : List (String × List String))
    (m n : String) : mteLookup (mteAdd mte m n) m = mteLookup mte m ++ [n] := by
  induction mte with
  | nil => simp [mteAdd, mteLookup, List.find?]
  | cons p rest ih =>
    by_cases h : p.1 = m
    · simp [mteAdd, mteLookup, List.find?, h]
    · simpa [mteAdd, mteLookup, List.find?, h] using ih

theorem mteLookup_mteAdd_other (mte : List (String × List String))
    (m n k : String) (hk : k ≠ m) :
    mteLookup (mteAdd mte m n) k = mteLookup mte k := by
  induction mte with
  | nil => simp [mteAdd, mteLookup, List.find?, hk, Ne.symm hk]
  | cons p rest ih =>
    by_cases h : p.1 = m
    · have hpk : ¬ p.1 = k := by simp [h, Ne.symm hk]
      simp [mteAdd, mteLookup, List.find?, h, hpk, hk, Ne.symm hk]
    · by_cases hpk : p.1 = k
      · simp [mteAdd, mteLookup, List.find?, h, hpk, hk, Ne.symm hk]
      · simpa [mteAdd, mteLookup, List.find?, h, hpk, hk, Ne.symm hk] using ih

theorem mteLookup_mteAdd_mem (mte : List (String × List String))
    (m n k x : String) (hx : x ∈ mteLookup mte k) :
    x ∈ mteLookup (mteAdd mte m n) k := by
  by_cases h : k = m
  · subst h
    rw [mteLookup_mteAdd_self]
    exact List.mem_append_left _ hx
  · rwa [mteLookup_mteAdd_other _ _ _ _ h]

/-- Every recorded employee's manager link is mirrored in
`managerToEmployees`. -/
def CoreInv (s : ParseCore) : Prop :=
  ∀ e ∈ s.employees, ∀ m, e.manager = some m →
    e.name ∈ mteLookup s.managerToEmployees m

theorem coreInv_processRowCore (headers row : List String) (nameColumn : Nat)
    (managerColumn : Int) (titleColumn : Option Nat) (s : ParseCore)
    (hs : CoreInv s) :
    CoreInv (processRowCore headers row nameColumn managerColumn titleColumn
      s) := by
  unfold processRowCore
  dsimp only
  split
  · exact hs
  · split
    · exact hs
    · intro e he m hm
      dsimp only at he
      rcases List.mem_append.1 he with he | he
      · by_cases hmn : jsTrim (cellAtInt row managerColumn) = ""
        · simpa [hmn] using hs e he m hm
        · simp only [hmn, ite_false, if_neg, not_false_iff]
          exact mteLookup_mteAdd_mem _ _ _ _ _ (hs e he m hm)
      · simp only [List.mem_singleton] at he
        subst he
        simp only at hm
        by_cases hmn : jsTrim (cellAtInt row managerColumn) = ""
        · simp [hmn] at hm
        · simp only [hmn, ite_false, if_neg, not_false_iff,
            Option.some.injEq] at hm ⊢
          subst hm
          rw [mteLookup_mteAdd_self]
          simp

theorem coreInv_firstPass (headers : List String) (nameColumn : Nat)
    (managerColumn : Int) (titleColumn : Option Nat)
    (rows : List (List String)) (i : Nat) (s : ParseCore) (hs : CoreInv s) :
    CoreInv (firstPass headers nameColumn managerColumn titleColumn rows i
      s).1 := by
  induction rows generalizing i s with
  | nil => simpa [firstPass]
  | cons row rows ih =>
    simpa [firstPass] using
      ih (i + 1) _ (coreInv_processRowCore _ _ _ _ _ _ hs)

theorem hfind_mkHierarchy (core : ParseCore) (k : String) :
    hfind (mkHierarchy core) k =
      (core.employees.find? (fun e => e.name = k)).map
        (fun e => ⟨e, mteLookup core.managerToEmployees e.name, e.manager⟩) := by
  unfold hfind mkHierarchy
  induction core.employees with
  | nil => simp
  | cons e rest ih =>
    by_cases h : e.name = k
    · simp [List.find?, h]
    · simpa [List.find?, h] using ih

/-- C7: in any hierarchy returned by `generateHierarchy`, a node whose
`managerId` is itself a hierarchy key appears among that manager's
`directReports` (bidirectional consistency invariant). -/
theorem generateHierarchy_bidirectional (data : List (List String))
    (nameColumn : Nat) (managerColumn : Int) (titleColumn : Option Nat)
    (nm : String) (nd : HierarchyNode) (m : String) (nd' : HierarchyNode)
    (hmem : (nm, nd) ∈
      (generateHierarchy data nameColumn managerColumn titleColumn).hierarchy)
    (hmgr : nd.managerId = some m)
    (hm : hfind
      (generateHierarchy data nameColumn managerColumn titleColumn).hierarchy
      m = some nd') :
    nm ∈ nd'.directReports := by
  unfold generateHierarchy at hmem hm
  simp only [mkHierarchy, List.mem_map] at hmem
  obtain ⟨e, he, heq⟩ := hmem
  injection heq with hnm hnd
  subst hnm
  subst hnd
  simp only at hmgr
  rw [hfind_mkHierarchy] at hm
  rw [Option.map_eq_some'] at hm
  obtain ⟨e', hfe, hnd'⟩ := hm
  have he' : e'.name = m := by
    have := List.find?_some hfe
    simpa using this
  subst hnd'
  simp only [he']
  have hinv : CoreInv (firstPass (data.headD []) nameColumn managerColumn
      titleColumn (data.drop 1) 0 ⟨[], [], []⟩).1 := by
    apply coreInv_firstPass
    intro e he
    simp [ParseCore.employees] at he
  exact hinv e he m hmgr

/-- Witness for C7 at a concrete two-row grid. -/
theorem generateHierarchy_bidirectional_witness :
    "A" ∈ (HierarchyNode.mk ⟨"B", none, none, []⟩ ["A"] none).directReports :=
  generateHierarchy_bidirectional [["Name", "Manager"], ["B", ""], ["A", "B"]]
    0 1 none "A" ⟨⟨"A", none, some "B", []⟩, [], some "B"⟩ "B"
    ⟨⟨"B", none, none, []⟩, ["A"], none⟩ (by decide) rfl (by decide)

/-! ### Orphaned managers (claim C8) -/

theorem names_processRowCore (headers row : List String) (nameColumn : Nat)
    (managerColumn : Int) (titleColumn : Option Nat) (s : ParseCore)
    (h : s.allEmployeeNames = s.employees.map ParsedEmployee.name) :
    (processRowCore headers row nameColumn managerColumn titleColumn
        s).allEmployeeNames =
      (processRowCore headers row nameColumn managerColumn titleColumn
        s).employees.map ParsedEmployee.name := by
  unfold processRowCore
  dsimp only
  split
  · exact h
  · split
    · exact h
    · simp [h]

theorem names_firstPass (headers : List String) (nameColumn : Nat)
    (managerColumn : Int) (titleColumn : Option Nat)
    (rows : List (List String)) (i : Nat) (s : ParseCore)
    (h : s.allEmployeeNames = s.employees.map ParsedEmployee.name) :
    (firstPass headers nameColumn managerColumn titleColumn rows i
        s).1.allEmployeeNames =
      (firstPass headers nameColumn managerColumn titleColumn rows i
        s).1.employees.map ParsedEmployee.name := by
  induction rows generalizing i s with
  | nil => simpa [firstPass]
  | cons row rows ih =>
    simpa [firstPass] using
      ih (i + 1) _ (names_processRowCore _ _ _ _ _ _ h)

theorem rootsAndOrphanErrors_mem (names : List String)
    (employees : List ParsedEmployee) (e : ParsedEmployee) (m : String)
    (he : e ∈ employees) (hm : e.manager = some m) (hnm : m ∉ names) :
    e.name ∈ (rootsAndOrphanErrors names employees).1 ∧
      ("Employee \"" ++ e.name ++ "\" has manager \"" ++ m ++
        "\" who is not in the employee list") ∈
        (rootsAndOrphanErrors names employees).2 := by
  induction employees with
  | nil => cases he
  | cons e' rest ih =>
    rcases List.mem_cons.1 he with rfl | he
    · simp only [rootsAndOrphanErrors, hm]
      simp [hnm]
    · have := ih he
      unfold rootsAndOrphanErrors
      rcases hmm : e'.manager with _ | m'
      · simpa using ⟨Or.inr this.1, this.2⟩
      · by_cases hin : m' ∈ names
        · simpa [hin] using this
        · simpa [hin] using ⟨Or.inr this.1, Or.inr this.2⟩

theorem dfsCycle_errors_mono (h : List (String × HierarchyNode)) (fuel : Nat)
    (n : String) (path : List String) (s : DfsState) :
    ∃ t, (dfsCycle h fuel n path s).errors = s.errors ++ t := by
  induction fuel generalizing n path s with
  | zero => exact ⟨_, rfl⟩
  | succ fuel ih =>
    unfold dfsCycle
    dsimp only
    split
    · exact ⟨_, rfl⟩
    · split
      · exact ⟨[], by simp⟩
      · rcases hnode : hfind h n with _ | node
        · simp only [hnode]
          exact ⟨[], by simp⟩
        · simp only [hnode]
          rcases hmid : node.managerId with _ | m
          · simp only
            exact ⟨[], by simp⟩
          · simp only
            split
            · exact ih m _ _
            · exact ⟨[], by simp⟩

theorem dfsLoop_errors_mono (h : List (String × HierarchyNode))
    (ks : List String) (s : DfsState) :
    ∃ t, (dfsLoop h ks s).errors = s.errors ++ t := by
  induction ks generalizing s with
  | nil => exact ⟨[], by simp [dfsLoop]⟩
  | cons k ks ih =>
    unfold dfsLoop
    split
    · exact ih s
    · obtain ⟨t1, ht1⟩ := dfsCycle_errors_mono h (h.length + 1) k [] s
      obtain ⟨t2, ht2⟩ := ih (dfsCycle h (h.length + 1) k [] s)
      exact ⟨t1 ++ t2, by rw [ht2, ht1, List.append_assoc]⟩

theorem detectCircularReporting_errors_mono
    (h : List (String × HierarchyNode)) (errs : List String) :
    ∃ t, detectCircularReporting h errs = errs ++ t :=
  dfsLoop_errors_mono h (h.map Prod.fst) ⟨[], [], errs⟩

/-- C8: `generateHierarchy` never fills `orphanedEmployees` (hence the
ingestion statistic is 0 for every input), and an employee whose declared
manager is not among the parsed employee names lands in `rootEmployees`
with an orphan error in the error list. -/
theorem generateHierarchy_orphans (data : List (List String))
    (nameColumn : Nat) (managerColumn : Int) (titleColumn : Option Nat) :
    (generateHierarchy data nameColumn managerColumn
        titleColumn).orphanedEmployees = [] ∧
      ingestionOrphanedStatistic data nameColumn managerColumn titleColumn
        = 0 ∧
      ∀ e ∈ (generateHierarchy data nameColumn managerColumn
          titleColumn).employees, ∀ m, e.manager = some m →
        m ∉ (generateHierarchy data nameColumn managerColumn
          titleColumn).employees.map ParsedEmployee.name →
        e.name ∈ (generateHierarchy data nameColumn managerColumn
          titleColumn).rootEmployees ∧
        ("Employee \"" ++ e.name ++ "\" has manager \"" ++ m ++
          "\" who is not in the employee list") ∈
          (generateHierarchy data nameColumn managerColumn
            titleColumn).errors := by
  refine ⟨rfl, rfl, ?_⟩
  intro e he m hm hnm
  unfold generateHierarchy at he hnm ⊢
  dsimp only at he hnm ⊢
  rw [← names_firstPass (data.headD []) nameColumn managerColumn titleColumn
    (data.drop 1) 0 ⟨[], [], []⟩ rfl] at hnm
  have hro := rootsAndOrphanErrors_mem _ _ e m he hm hnm
  refine ⟨hro.1, ?_⟩
  obtain ⟨t, ht⟩ := detectCircularReporting_errors_mono
    (mkHierarchy (firstPass (data.headD []) nameColumn managerColumn
      titleColumn (data.drop 1) 0 ⟨[], [], []⟩).1)
    ((firstPass (data.headD []) nameColumn managerColumn titleColumn
        (data.drop 1) 0 ⟨[], [], []⟩).2 ++
      (rootsAndOrphanErrors
        (firstPass (data.headD []) nameColumn managerColumn titleColumn
          (data.drop 1) 0 ⟨[], [], []⟩).1.allEmployeeNames
        (firstPass (data.headD []) nameColumn managerColumn titleColumn
          (data.drop 1) 0 ⟨[], [], []⟩).1.employees).2)
  rw [ht]
  exact List.mem_append_left _ (List.mem_append_right _ hro.2)

/-- Witness for C8 at a concrete grid whose single employee names an
unknown manager. -/
theorem generateHierarchy_orphans_witness :
    (generateHierarchy [["Name", "Manager"], ["Alice", "Bob"]] 0 1
        none).orphanedEmployees = [] ∧
      "Alice" ∈ (generateHierarchy [["Name", "Manager"], ["Alice", "Bob"]] 0 1
        none).rootEmployees ∧
      ("Employee \"" ++ "Alice" ++ "\" has manager \"" ++ "Bob" ++
        "\" who is not in the employee list") ∈
        (generateHierarchy [["Name", "Manager"], ["Alice", "Bob"]] 0 1
          none).errors := by
  have h := generateHierarchy_orphans [["Name", "Manager"], ["Alice", "Bob"]]
    0 1 none
  have h2 := h.2.2 ⟨"Alice", none, some "Bob", []⟩ (by decide) "Bob" rfl
    (by decide)
  exact ⟨h.1, h2.1, h2.2⟩

/-! ### String facts for error-message disambiguation (claim C9)

The first pass emits `Row N: …` messages whose row number is rendered by
`Nat.repr`; telling two such messages apart needs only that the rendered
number is a run of digit characters ended by the non-digit `':'`. -/

theorem ext_of_data {s t : String} (h : s.data = t.data) : s = t := by
  cases s
  cases t
  exact congrArg String.mk h

theorem digitChar_isDigit (d : Nat) (hd : d < 10) :
    (Nat.digitChar d).isDigit = true := by
  interval_cases d <;> decide

theorem toDigitsCore_digits (f : Nat) :
    ∀ (n : Nat) (acc : List Char), (∀ c ∈ acc, c.isDigit = true) →
      ∀ c ∈ Nat.toDigitsCore 10 f n acc, c.isDigit = true := by
  induction f with
  | zero => intro n acc hacc; simpa [Nat.toDigitsCore] using hacc
  | succ f ih =>
    intro n acc hacc c hc
    rw [Nat.toDigitsCore] at hc
    have hd : (Nat.digitChar (n % 10)).isDigit = true :=
      digitChar_isDigit _ (Nat.mod_lt _ (by norm_num))
    by_cases h0 : n / 10 = 0
    · rw [if_pos h0] at hc
      rcases List.mem_cons.1 hc with rfl | hc
      · exact hd
      · exact hacc c hc
    · rw [if_neg h0] at hc
      refine ih (n / 10) _ ?_ c hc
      intro c' hc'
      rcases List.mem_cons.1 hc' with rfl | hc'
      · exact hd
      · exact hacc c' hc'

theorem toString_nat_digits (n : Nat) :
    ∀ c ∈ (toString n).data, c.isDigit = true := by
  show ∀ c ∈ (Nat.repr n).data, c.isDigit = true
  unfold Nat.repr Nat.toDigits
  intro c hc
  exact toDigitsCore_digits _ _ [] (by simp) c (by simpa using hc)

/-- Maximal-munch splitting: a digit run followed by a non-digit determines
the split point. -/
theorem digit_run_split :
    ∀ (d1 d2 r1 r2 : List Char),
      (∀ c ∈ d1, c.isDigit = true) → (∀ c ∈ d2, c.isDigit = true) →
      (∀ c, r1.head? = some c → c.isDigit = false) →
      (∀ c, r2.head? = some c → c.isDigit = false) →
      d1 ++ r1 = d2 ++ r2 → d1 = d2 ∧ r1 = r2 := by
  intro d1
  induction d1 with
  | nil =>
    intro d2 r1 r2 _ hd2 hr1 _ heq
    cases d2 with
    | nil => exact ⟨rfl, heq⟩
    | cons c d2 =>
      exfalso
      simp only [List.nil_append] at heq
      have h1 : r1.head? = some c := by rw [heq]; rfl
      have := hr1 c h1
      rw [hd2 c (List.mem_cons_self c d2)] at this
      cases this
  | cons c d1 ih =>
    intro d2 r1 r2 hd1 hd2 hr1 hr2 heq
    cases d2 with
    | nil =>
      exfalso
      simp only [List.nil_append] at heq
      have h1 : r2.head? = some c := by rw [← heq]; rfl
      have := hr2 c h1
      rw [hd1 c (List.mem_cons_self c d1)] at this
      cases this
    | cons c2 d2 =>
      simp only [List.cons_append, List.cons.injEq] at heq
      obtain ⟨rfl, heq⟩ := heq
      have := ih d2 r1 r2 (fun x hx => hd1 x (List.mem_cons_of_mem _ hx))
        (fun x hx => hd2 x (List.mem_cons_of_mem _ hx)) hr1 hr2 heq
      exact ⟨by rw [this.1], this.2⟩

theorem dupMsg_name_eq (n m : Nat) (y x : String)
    (h : dupMsg n y = dupMsg m x) : y = x := by
  unfold dupMsg at h
  have hd := congrArg String.data h
  simp only [String.data_append, List.append_assoc, List.cons_append,
    List.nil_append, List.cons.injEq, true_and] at hd
  have hsplit := digit_run_split (toString n).data (toString m).data _ _
    (toString_nat_digits n) (toString_nat_digits m)
    (by intro c hc; cases hc; rfl) (by intro c hc; cases hc; rfl) hd
  have h2 := hsplit.2
  simp only [List.cons.injEq, true_and] at h2
  exact ext_of_data (List.append_cancel_right h2)

theorem dupMsg_ne_emptyMsg (n m : Nat) (x : String) :
    dupMsg n x ≠ emptyMsg m := by
  intro h
  unfold dupMsg emptyMsg at h
  have hd := congrArg String.data h
  simp only [String.data_append, List.append_assoc, List.cons_append,
    List.nil_append, List.cons.injEq, true_and] at hd
  have hsplit := digit_run_split (toString n).data (toString m).data _ _
    (toString_nat_digits n) (toString_nat_digits m)
    (by intro c hc; cases hc; rfl) (by intro c hc; cases hc; rfl) hd
  have h2 := hsplit.2
  simp at h2

/-! ### Duplicate-name rejection (claim C9) -/

/-- Case analysis of one row of the first pass: either the row is skipped
(empty or duplicate trimmed name) and the core state is unchanged, or one
employee carrying the row's trimmed name is appended. -/
theorem processRowCore_spec (headers row : List String) (nameColumn : Nat)
    (managerColumn : Int) (titleColumn : Option Nat) (s : ParseCore) :
    ((rowName row nameColumn = "" ∨
        rowName row nameColumn ∈ s.allEmployeeNames) ∧
      processRowCore headers row nameColumn managerColumn titleColumn s = s) ∨
    ((rowName row nameColumn ≠ "" ∧
        rowName row nameColumn ∉ s.allEmployeeNames) ∧
      ∃ emp : ParsedEmployee, emp.name = rowName row nameColumn ∧
        (processRowCore headers row nameColumn managerColumn titleColumn
          s).employees = s.employees ++ [emp] ∧
        (processRowCore headers row nameColumn managerColumn titleColumn
          s).allEmployeeNames =
          s.allEmployeeNames ++ [rowName row nameColumn]) := by
  unfold processRowCore
  dsimp only
  split
  · rename_i h1
    exact Or.inl ⟨Or.inl h1, rfl⟩
  · split
    · rename_i h1 h2
      exact Or.inl ⟨Or.inr h2, rfl⟩
    · rename_i h1 h2
      exact Or.inr ⟨⟨h1, h2⟩, ⟨_, rfl, rfl, rfl⟩⟩

/-- Once a name has been seen, the first pass records no further employee
with that name. -/
theorem employees_count_seen (headers : List String) (nameColumn : Nat)
    (managerColumn : Int) (titleColumn : Option Nat) (x : String) :
    ∀ (rows : List (List String)) (i : Nat) (s : ParseCore),
      x ∈ s.allEmployeeNames →
      ((firstPass headers nameColumn managerColumn titleColumn rows i
          s).1.employees.filter (fun e => e.name = x)).length =
        (s.employees.filter (fun e => e.name = x)).length := by
  intro rows
  induction rows with
  | nil => intro i s _; simp [firstPass]
  | cons row rows ih =>
    intro i s hx
    rw [firstPass]
    dsimp only
    rcases processRowCore_spec headers row nameColumn managerColumn
        titleColumn s with ⟨_, heq⟩ | ⟨⟨hne, hnotin⟩, emp, hname, hemps, hnames⟩
    · rw [heq]
      exact ih (i + 1) s hx
    · rw [ih (i + 1) _ (by rw [hnames]; exact List.mem_append_left _ hx)]
      rw [hemps]
      have hxe : ¬ emp.name = x := by
        rw [hname]
        intro hc
        exact hnotin (hc ▸ hx)
      simp [List.filter_append, hxe]

/-- A name not yet seen, carried by exactly the first of the remaining rows
that mention it, yields exactly one additional employee record. -/
theorem employees_count_first (headers : List String) (nameColumn : Nat)
    (managerColumn : Int) (titleColumn : Option Nat) (x : String)
    (hxne : x ≠ "") :
    ∀ (A : List (List String)) (r1 : List String) (rest : List (List String))
      (i : Nat) (s : ParseCore),
      (∀ r ∈ A, rowName r nameColumn ≠ x) →
      rowName r1 nameColumn = x →
      x ∉ s.allEmployeeNames →
      ((firstPass headers nameColumn managerColumn titleColumn
          (A ++ r1 :: rest) i s).1.employees.filter
            (fun e => e.name = x)).length =
        (s.employees.filter (fun e => e.name = x)).length + 1 := by
  intro A
  induction A with
  | nil =>
    intro r1 rest i s _ hr1 hxnot
    rw [List.nil_append, firstPass]
    dsimp only
    rcases processRowCore_spec headers r1 nameColumn managerColumn
        titleColumn s with ⟨hc, _⟩ | ⟨_, emp, hname, hemps, hnames⟩
    · rcases hc with hc | hc
      · exact absurd (hr1 ▸ hc) hxne
      · exact absurd (hr1 ▸ hc) hxnot
    · rw [employees_count_seen headers nameColumn managerColumn titleColumn x
        rest (i + 1) _
        (by rw [hnames, hr1]; exact List.mem_append_right _ (by simp))]
      rw [hemps]
      have hxe : emp.name = x := hname.trans hr1
      simp [List.filter_append, hxe]
  | cons r A ih =>
    intro r1 rest i s hA hr1 hxnot
    rw [List.cons_append, firstPass]
    dsimp only
    have hrx : rowName r nameColumn ≠ x :=
      hA r (List.mem_cons_self r A)
    rcases processRowCore_spec headers r nameColumn managerColumn
        titleColumn s with ⟨_, heq⟩ | ⟨⟨hne, hnotin⟩, emp, hname, hemps, hnames⟩
    · rw [heq]
      exact ih r1 rest (i + 1) s (fun r' hr' => hA r' (List.mem_cons_of_mem _ hr'))
        hr1 hxnot
    · rw [ih r1 rest (i + 1) _
        (fun r' hr' => hA r' (List.mem_cons_of_mem _ hr')) hr1
        (by
          rw [hnames]
          intro hmem
          rcases List.mem_append.1 hmem with hmem | hmem
          · exact hxnot hmem
          · simp only [List.mem_singleton] at hmem
            exact hrx hmem.symm)]
      rw [hemps]
      have hxe : ¬ emp.name = x := by
        rw [hname]
        exact hrx
      simp [List.filter_append, hxe]

/-- Rows that never carry the name `x` contribute no duplicate error for
`x`, whatever row number the sought message carries. -/
theorem errors_count_none (headers : List String) (nameColumn : Nat)
    (managerColumn : Int) (titleColumn : Option Nat) (x : String) (n : Nat) :
    ∀ (rows : List (List String)) (i : Nat) (s : ParseCore),
      (∀ r ∈ rows, rowName r nameColumn ≠ x) →
      ((firstPass headers nameColumn managerColumn titleColumn rows i
          s).2).count (dupMsg n x) = 0 := by
  intro rows
  induction rows with
  | nil => intro i s _; simp [firstPass]
  | cons row rows ih =>
    intro i s hrows
    rw [firstPass]
    dsimp only
    rw [List.count_append]
    rw [ih (i + 1) _ (fun r hr => hrows r (List.mem_cons_of_mem _ hr))]
    have hrx : rowName row nameColumn ≠ x :=
      hrows row (List.mem_cons_self row rows)
    unfold processRowErr
    dsimp only
    split
    · have hne : dupMsg n x ∉ [emptyMsg (i + 2)] := by
        simp only [List.mem_singleton]
        exact dupMsg_ne_emptyMsg n (i + 2) x
      simpa using List.count_eq_zero.2 hne
    · split
      · have hne : dupMsg n x ∉
            [dupMsg (i + 2) (rowName row nameColumn)] := by
          simp only [List.mem_singleton]
          intro hc
          exact hrx (dupMsg_name_eq _ _ _ _ hc.symm)
        simpa using List.count_eq_zero.2 hne
      · simp

/-- A row not carrying the name `x` contributes no duplicate error for
`x`. -/
theorem processRowErr_count_ne (row : List String) (nameColumn : Nat)
    (i : Nat) (names : List String) (n : Nat) (x : String)
    (hrx : rowName row nameColumn ≠ x) :
    (processRowErr row nameColumn i names).count (dupMsg n x) = 0 := by
  unfold processRowErr
  dsimp only
  split
  · have hne : dupMsg n x ∉ [emptyMsg (i + 2)] := by
      simp only [List.mem_singleton]
      exact dupMsg_ne_emptyMsg n (i + 2) x
    simpa using List.count_eq_zero.2 hne
  · split
    · have hne : dupMsg n x ∉ [dupMsg (i + 2) (rowName row nameColumn)] := by
        simp only [List.mem_singleton]
        intro hc
        exact hrx (dupMsg_name_eq _ _ _ _ hc.symm)
      simpa using List.count_eq_zero.2 hne
    · simp

/-- Once the name is recorded, the unique later row carrying it produces
exactly one duplicate error, naming that row. -/
theorem errors_count_seen (headers : List String) (nameColumn : Nat)
    (managerColumn : Int) (titleColumn : Option Nat) (x : String)
    (hxne : x ≠ "") :
    ∀ (B : List (List String)) (r2 : List String) (C : List (List String))
      (i : Nat) (s : ParseCore),
      (∀ r ∈ B, rowName r nameColumn ≠ x) →
      (∀ r ∈ C, rowName r nameColumn ≠ x) →
      rowName r2 nameColumn = x →
      x ∈ s.allEmployeeNames →
      ((firstPass headers nameColumn managerColumn titleColumn
          (B ++ r2 :: C) i s).2).count (dupMsg (i + B.length + 2) x) = 1 := by
  intro B
  induction B with
  | nil =>
    intro r2 C i s _ hC hr2 hxin
    rw [List.nil_append, firstPass]
    dsimp only
    rw [List.count_append]
    rw [errors_count_none headers nameColumn managerColumn titleColumn x _ C
      (i + 1) _ hC]
    unfold processRowErr
    dsimp only
    rw [hr2, if_neg hxne, if_pos hxin]
    simp [List.count_singleton']
  | cons r B ih =>
    intro r2 C i s hB hC hr2 hxin
    rw [List.cons_append, firstPass]
    dsimp only
    rw [List.count_append]
    have hrx : rowName r nameColumn ≠ x := hB r (List.mem_cons_self r B)
    rw [processRowErr_count_ne r nameColumn i s.allEmployeeNames _ x hrx]
    have hxin' : x ∈ (processRowCore headers r nameColumn managerColumn
        titleColumn s).allEmployeeNames := by
      rcases processRowCore_spec headers r nameColumn managerColumn
          titleColumn s with ⟨_, heq⟩ | ⟨_, emp, _, _, hnames⟩
      · rw [heq]
        exact hxin
      · rw [hnames]
        exact List.mem_append_left _ hxin
    have hrest := ih r2 C (i + 1) _
      (fun r' hr' => hB r' (List.mem_cons_of_mem _ hr')) hC hr2 hxin'
    have hNeq : i + 1 + B.length + 2 = i + (r :: B).length + 2 := by
      simp only [List.length_cons]
      omega
    rw [hNeq] at hrest
    omega

/-- A not-yet-seen name carried by exactly two later rows produces exactly
one duplicate error, naming the second of the two. -/
theorem errors_count_dup (headers : List String) (nameColumn : Nat)
    (managerColumn : Int) (titleColumn : Option Nat) (x : String)
    (hxne : x ≠ "") :
    ∀ (A : List (List String)) (r1 r2 : List String)
      (B C : List (List String)) (i : Nat) (s : ParseCore),
      (∀ r ∈ A, rowName r nameColumn ≠ x) →
      (∀ r ∈ B, rowName r nameColumn ≠ x) →
      (∀ r ∈ C, rowName r nameColumn ≠ x) →
      rowName r1 nameColumn = x → rowName r2 nameColumn = x →
      x ∉ s.allEmployeeNames →
      ((firstPass headers nameColumn managerColumn titleColumn
          (A ++ r1 :: (B ++ r2 :: C)) i s).2).count
        (dupMsg (i + A.length + B.length + 3) x) = 1 := by
  intro A
  induction A with
  | nil =>
    intro r1 r2 B C i s _ hB hC hr1 hr2 hxnot
    rw [List.nil_append, firstPass]
    dsimp only
    rw [List.count_append]
    have hhead : (processRowErr r1 nameColumn i s.allEmployeeNames).count
        (dupMsg (i + List.length ([] : List (List String)) + B.length + 3)
          x) = 0 := by
      unfold processRowErr
      dsimp only
      rw [hr1, if_neg hxne, if_neg hxnot]
      simp
    rw [hhead]
    rcases processRowCore_spec headers r1 nameColumn managerColumn
        titleColumn s with ⟨hc, _⟩ | ⟨_, emp, _, _, hnames⟩
    · rcases hc with hc | hc
      · exact absurd (hr1 ▸ hc) hxne
      · exact absurd (hr1 ▸ hc) hxnot
    · have hxin : x ∈ (processRowCore headers r1 nameColumn managerColumn
          titleColumn s).allEmployeeNames := by
        rw [hnames, hr1]
        exact List.mem_append_right _ (by simp)
      have hrest := errors_count_seen headers nameColumn managerColumn
        titleColumn x hxne B r2 C (i + 1) _ hB hC hr2 hxin
      have hNeq : i + 1 + B.length + 2
          = i + List.length ([] : List (List String)) + B.length + 3 := by
        simp only [List.length_nil]
        omega
      rw [hNeq] at hrest
      omega
  | cons r A ih =>
    intro r1 r2 B C i s hA hB hC hr1 hr2 hxnot
    rw [List.cons_append, firstPass]
    dsimp only
    rw [List.count_append]
    have hrx : rowName r nameColumn ≠ x := hA r (List.mem_cons_self r A)
    rw [processRowErr_count_ne r nameColumn i s.allEmployeeNames _ x hrx]
    have hxnot' : x ∉ (processRowCore headers r nameColumn managerColumn
        titleColumn s).allEmployeeNames := by
      rcases processRowCore_spec headers r nameColumn managerColumn
          titleColumn s with ⟨_, heq⟩ | ⟨_, emp, _, _, hnames⟩
      · rw [heq]
        exact hxnot
      · rw [hnames]
        intro hmem
        rcases List.mem_append.1 hmem with hmem | hmem
        · exact hxnot hmem
        · simp only [List.mem_singleton] at hmem
          exact hrx hmem.symm
    have hrest := ih r1 r2 B C (i + 1) _
      (fun r' hr' => hA r' (List.mem_cons_of_mem _ hr')) hB hC hr1 hr2 hxnot'
    have hNeq : i + 1 + A.length + B.length + 3
        = i + (r :: A).length + B.length + 3 := by
      simp only [List.length_cons]
      omega
    rw [hNeq] at hrest
    omega

theorem dupMsg_ne_orphan (n : Nat) (x a b : String) :
    dupMsg n x ≠ "Employee \"" ++ a ++ "\" has manager \"" ++ b ++
      "\" who is not in the employee list" := by
  intro hc
  have hd := congrArg String.data hc
  have hR : "Row ".data = 'R' :: "ow ".data := rfl
  have hE : "Employee \"".data = 'E' :: "mployee \"".data := rfl
  simp only [dupMsg, String.data_append, hR, hE, List.append_assoc,
    List.cons_append, List.cons.injEq] at hd
  exact absurd hd.1 (by decide)

theorem dupMsg_ne_circular (n : Nat) (x r : String) :
    dupMsg n x ≠ "Circular reporting detected: " ++ r := by
  intro hc
  have hd := congrArg String.data hc
  have hR : "Row ".data = 'R' :: "ow ".data := rfl
  have hC : "Circular reporting detected: ".data
      = 'C' :: "ircular reporting detected: ".data := rfl
  simp only [dupMsg, String.data_append, hR, hC, List.append_assoc,
    List.cons_append, List.cons.injEq] at hd
  exact absurd hd.1 (by decide)

theorem dupMsg_ne_fuel (n : Nat) (x : String) :
    dupMsg n x ≠ "FUEL EXHAUSTED" := by
  intro hc
  have hd := congrArg String.data hc
  have hR : "Row ".data = 'R' :: "ow ".data := rfl
  have hF : "FUEL EXHAUSTED".data = 'F' :: "UEL EXHAUSTED".data := rfl
  simp only [dupMsg, String.data_append, hR, hF, List.append_assoc,
    List.cons_append, List.cons.injEq] at hd
  exact absurd hd.1 (by decide)

/-- Every orphan error has the `Employee "…" has manager "…"` shape. -/
theorem rootsAndOrphanErrors_shape (names : List String) :
    ∀ (emps : List ParsedEmployee),
      ∀ e ∈ (rootsAndOrphanErrors names emps).2, ∃ a b,
        e = "Employee \"" ++ a ++ "\" has manager \"" ++ b ++
          "\" who is not in the employee list" := by
  intro emps
  induction emps with
  | nil => intro e he; cases he
  | cons emp rest ih =>
    intro e he
    unfold rootsAndOrphanErrors at he
    rcases hm : emp.manager with _ | m
    · rw [hm] at he
      dsimp only at he
      exact ih e he
    · rw [hm] at he
      dsimp only at he
      by_cases hin : m ∈ names
      · rw [if_pos hin] at he
        exact ih e he
      · rw [if_neg hin] at he
        dsimp only at he
        rcases List.mem_cons.1 he with rfl | he
        · exact ⟨emp.name, m, rfl⟩
        · exact ih e he

/-- Every error appended by the cycle dfs is a circular-reporting message
(or the fuel sentinel, never reached with adequate fuel). -/
theorem dfsCycle_errors_shape (h : List (String × HierarchyNode))
    (fuel : Nat) (n : String) (path : List String) (s : DfsState) :
    ∃ t, (dfsCycle h fuel n path s).errors = s.errors ++ t ∧
      ∀ e ∈ t, (∃ r, e = "Circular reporting detected: " ++ r)
        ∨ e = "FUEL EXHAUSTED" := by
  induction fuel generalizing n path s with
  | zero =>
    refine ⟨["FUEL EXHAUSTED"], rfl, ?_⟩
    intro e he
    simp only [List.mem_singleton] at he
    exact Or.inr he
  | succ fuel ih =>
    unfold dfsCycle
    dsimp only
    split
    · refine ⟨_, rfl, ?_⟩
      intro e he
      simp only [List.mem_singleton] at he
      subst he
      exact Or.inl ⟨String.intercalate " -> " path ++ (" -> " ++ n),
        by simp [String.append_assoc]⟩
    · split
      · exact ⟨[], by simp, by simp⟩
      · rcases hnode : hfind h n with _ | node
        · simp only [hnode]
          exact ⟨[], by simp, by simp⟩
        · simp only [hnode]
          rcases hmid : node.managerId with _ | m
          · simp only
            exact ⟨[], by simp, by simp⟩
          · simp only
            split
            · exact ih m _ _
            · exact ⟨[], by simp, by simp⟩

theorem dfsLoop_errors_shape (h : List (String × HierarchyNode))
    (ks : List String) (s : DfsState) :
    ∃ t, (dfsLoop h ks s).errors = s.errors ++ t ∧
      ∀ e ∈ t, (∃ r, e = "Circular reporting detected: " ++ r)
        ∨ e = "FUEL EXHAUSTED" := by
  induction ks generalizing s with
  | nil => exact ⟨[], by simp [dfsLoop], by simp⟩
  | cons k ks ih =>
    unfold dfsLoop
    split
    · exact ih s
    · obtain ⟨t1, ht1, hs1⟩ := dfsCycle_errors_shape h (h.length + 1) k [] s
      obtain ⟨t2, ht2, hs2⟩ := ih (dfsCycle h (h.length + 1) k [] s)
      refine ⟨t1 ++ t2, by rw [ht2, ht1, List.append_assoc], ?_⟩
      intro e he
      rcases List.mem_append.1 he with he | he
      · exact hs1 e he
      · exact hs2 e he

theorem detectCircularReporting_errors_shape
    (h : List (String × HierarchyNode)) (errs : List String) :
    ∃ t, detectCircularReporting h errs = errs ++ t ∧
      ∀ e ∈ t, (∃ r, e = "Circular reporting detected: " ++ r)
        ∨ e = "FUEL EXHAUSTED" :=
  dfsLoop_errors_shape h (h.map Prod.fst) ⟨[], [], errs⟩

/-- The core state never depends on the running row index (only error
messages do). -/
theorem firstPass_core_i (headers : List String) (nameColumn : Nat)
    (managerColumn : Int) (titleColumn : Option Nat) :
    ∀ (rows : List (List String)) (i j : Nat) (s : ParseCore),
      (firstPass headers nameColumn managerColumn titleColumn rows i s).1 =
        (firstPass headers nameColumn managerColumn titleColumn rows j s).1 := by
  intro rows
  induction rows with
  | nil => intro i j s; rfl
  | cons row rows ih =>
    intro i j s
    rw [firstPass, firstPass]
    exact ih (i + 1) (j + 1) _

theorem firstPass_core_append (headers : List String) (nameColumn : Nat)
    (managerColumn : Int) (titleColumn : Option Nat) :
    ∀ (l1 l2 : List (List String)) (i : Nat) (s : ParseCore),
      (firstPass headers nameColumn managerColumn titleColumn (l1 ++ l2) i
          s).1 =
        (firstPass headers nameColumn managerColumn titleColumn l2
          (i + l1.length)
          (firstPass headers nameColumn managerColumn titleColumn l1 i
            s).1).1 := by
  intro l1
  induction l1 with
  | nil => intro l2 i s; simp [firstPass]
  | cons r l1 ih =>
    intro l2 i s
    rw [List.cons_append, firstPass]
    dsimp only
    rw [ih l2 (i + 1) _]
    rw [firstPass]
    dsimp only
    exact firstPass_core_i headers nameColumn managerColumn titleColumn l2
      (i + 1 + l1.length) (i + (r :: l1).length) _

theorem names_mono_firstPass (headers : List String) (nameColumn : Nat)
    (managerColumn : Int) (titleColumn : Option Nat) (y : String) :
    ∀ (rows : List (List String)) (i : Nat) (s : ParseCore),
      y ∈ s.allEmployeeNames →
      y ∈ (firstPass headers nameColumn managerColumn titleColumn rows i
        s).1.allEmployeeNames := by
  intro rows
  induction rows with
  | nil => intro i s hy; simpa [firstPass] using hy
  | cons row rows ih =>
    intro i s hy
    rw [firstPass]
    dsimp only
    refine ih (i + 1) _ ?_
    rcases processRowCore_spec headers row nameColumn managerColumn
        titleColumn s with ⟨_, heq⟩ | ⟨_, emp, _, _, hnames⟩
    · rw [heq]; exact hy
    · rw [hnames]; exact List.mem_append_left _ hy

/-- After the first row carrying a fresh name, the name is recorded. -/
theorem x_in_names_after (headers : List String) (nameColumn : Nat)
    (managerColumn : Int) (titleColumn : Option Nat) (x : String)
    (hxne : x ≠ "") :
    ∀ (A : List (List String)) (r1 : List String) (rest : List (List String))
      (i : Nat) (s : ParseCore),
      (∀ r ∈ A, rowName r nameColumn ≠ x) →
      rowName r1 nameColumn = x → x ∉ s.allEmployeeNames →
      x ∈ (firstPass headers nameColumn managerColumn titleColumn
        (A ++ r1 :: rest) i s).1.allEmployeeNames := by
  intro A
  induction A with
  | nil =>
    intro r1 rest i s _ hr1 hxnot
    rw [List.nil_append, firstPass]
    dsimp only
    rcases processRowCore_spec headers r1 nameColumn managerColumn
        titleColumn s with ⟨hc, _⟩ | ⟨_, emp, _, _, hnames⟩
    · rcases hc with hc | hc
      · exact absurd (hr1 ▸ hc) hxne
      · exact absurd (hr1 ▸ hc) hxnot
    · refine names_mono_firstPass headers nameColumn managerColumn
        titleColumn x rest (i + 1) _ ?_
      rw [hnames, hr1]
      exact List.mem_append_right _ (by simp)
  | cons r A ih =>
    intro r1 rest i s hA hr1 hxnot
    rw [List.cons_append, firstPass]
    dsimp only
    have hrx : rowName r nameColumn ≠ x := hA r (List.mem_cons_self r A)
    rcases processRowCore_spec headers r nameColumn managerColumn
        titleColumn s with ⟨_, heq⟩ | ⟨_, emp, _, _, hnames⟩
    · rw [heq]
      exact ih r1 rest (i + 1) s
        (fun r' hr' => hA r' (List.mem_cons_of_mem _ hr')) hr1 hxnot
    · refine ih r1 rest (i + 1) _
        (fun r' hr' => hA r' (List.mem_cons_of_mem _ hr')) hr1 ?_
      rw [hnames]
      intro hmem
      rcases List.mem_append.1 hmem with hmem | hmem
      · exact hxnot hmem
      · simp only [List.mem_singleton] at hmem
        exact hrx hmem.symm

/-- Removing the duplicate row leaves the core state (employees, names,
manager links) unchanged. -/
theorem firstPass_core_skip_duplicate (headers : List String)
    (nameColumn : Nat) (managerColumn : Int) (titleColumn : Option Nat)
    (x : String) (hxne : x ≠ "")
    (A B C : List (List String)) (r1 r2 : List String)
    (hA : ∀ r ∈ A, rowName r nameColumn ≠ x)
    (hr1 : rowName r1 nameColumn = x) (hr2 : rowName r2 nameColumn = x)
    (i j : Nat) (s : ParseCore) (hxnot : x ∉ s.allEmployeeNames) :
    (firstPass headers nameColumn managerColumn titleColumn
        (A ++ r1 :: (B ++ r2 :: C)) i s).1 =
      (firstPass headers nameColumn managerColumn titleColumn
        (A ++ r1 :: (B ++ C)) j s).1 := by
  have hsplit1 : A ++ r1 :: (B ++ r2 :: C) = (A ++ r1 :: B) ++ (r2 :: C) := by
    simp
  have hsplit2 : A ++ r1 :: (B ++ C) = (A ++ r1 :: B) ++ C := by
    simp
  rw [hsplit1, hsplit2]
  rw [firstPass_core_append headers nameColumn managerColumn titleColumn
    (A ++ r1 :: B) (r2 :: C) i s]
  rw [firstPass_core_append headers nameColumn managerColumn titleColumn
    (A ++ r1 :: B) C j s]
  rw [firstPass_core_i headers nameColumn managerColumn titleColumn
    (A ++ r1 :: B) j i s]
  rw [firstPass]
  dsimp only
  have hxin : x ∈ (firstPass headers nameColumn managerColumn titleColumn
      (A ++ r1 :: B) i s).1.allEmployeeNames :=
    x_in_names_after headers nameColumn managerColumn titleColumn x hxne A r1
      B i s hA hr1 hxnot
  rcases processRowCore_spec headers r2 nameColumn managerColumn titleColumn
      (firstPass headers nameColumn managerColumn titleColumn (A ++ r1 :: B)
        i s).1 with ⟨_, heq⟩ | ⟨⟨_, hnotin⟩, _, _, _, _⟩
  · rw [heq]
    exact firstPass_core_i headers nameColumn managerColumn titleColumn C
      (i + (A ++ r1 :: B).length + 1) (j + (A ++ r1 :: B).length) _
  · exact absurd (hr2 ▸ hxin) hnotin

/-- C9: a grid with exactly two data rows carrying the same trimmed,
non-empty employee name (the duplicate pair `r1`, `r2`, separated by rows
`A`, `B`, `C` that never carry that name) yields exactly one employee
record with that name, exactly one duplicate error — of the form
`Row N: Duplicate employee name "X"` with `N` the second row's number
counting the header as row 1 — and the same employees, hierarchy and roots
as the grid without the second of the two rows. -/
theorem generateHierarchy_duplicate_name
    (header r1 r2 : List String) (A B C : List (List String))
    (nameColumn : Nat) (managerColumn : Int) (titleColumn : Option Nat)
    (x : String) (hxne : x ≠ "")
    (h1 : rowName r1 nameColumn = x) (h2 : rowName r2 nameColumn = x)
    (hA : ∀ r ∈ A, rowName r nameColumn ≠ x)
    (hB : ∀ r ∈ B, rowName r nameColumn ≠ x)
    (hC : ∀ r ∈ C, rowName r nameColumn ≠ x) :
    ((generateHierarchy (header :: (A ++ r1 :: (B ++ r2 :: C))) nameColumn
        managerColumn titleColumn).employees.filter
          (fun e => e.name = x)).length = 1 ∧
    (generateHierarchy (header :: (A ++ r1 :: (B ++ r2 :: C))) nameColumn
        managerColumn titleColumn).errors.count
          (dupMsg (A.length + B.length + 3) x) = 1 ∧
    (generateHierarchy (header :: (A ++ r1 :: (B ++ r2 :: C))) nameColumn
        managerColumn titleColumn).employees =
      (generateHierarchy (header :: (A ++ r1 :: (B ++ C))) nameColumn
        managerColumn titleColumn).employees ∧
    (generateHierarchy (header :: (A ++ r1 :: (B ++ r2 :: C))) nameColumn
        managerColumn titleColumn).hierarchy =
      (generateHierarchy (header :: (A ++ r1 :: (B ++ C))) nameColumn
        managerColumn titleColumn).hierarchy ∧
    (generateHierarchy (header :: (A ++ r1 :: (B ++ r2 :: C))) nameColumn
        managerColumn titleColumn).rootEmployees =
      (generateHierarchy (header :: (A ++ r1 :: (B ++ C))) nameColumn
        managerColumn titleColumn).rootEmployees := by
  have hcore := firstPass_core_skip_duplicate header nameColumn managerColumn
    titleColumn x hxne A B C r1 r2 hA h1 h2 0 0 ⟨[], [], []⟩ (by simp)
  refine ⟨?_, ?_, ?_, ?_, ?_⟩
  · unfold generateHierarchy
    dsimp only [List.headD, List.drop]
    have h := employees_count_first header nameColumn managerColumn
      titleColumn x hxne A r1 (B ++ r2 :: C) 0 ⟨[], [], []⟩ hA h1 (by simp)
    simpa using h
  · have hfp := errors_count_dup header nameColumn managerColumn titleColumn
      x hxne A r1 r2 B C 0 ⟨[], [], []⟩ hA hB hC h1 h2 (by simp)
    simp only [Nat.zero_add] at hfp
    unfold generateHierarchy
    dsimp only [List.headD, List.drop]
    obtain ⟨t, ht, hshape⟩ := detectCircularReporting_errors_shape
      (mkHierarchy (firstPass header nameColumn managerColumn titleColumn
        (A ++ r1 :: (B ++ r2 :: C)) 0 ⟨[], [], []⟩).1)
      ((firstPass header nameColumn managerColumn titleColumn
          (A ++ r1 :: (B ++ r2 :: C)) 0 ⟨[], [], []⟩).2 ++
        (rootsAndOrphanErrors
          (firstPass header nameColumn managerColumn titleColumn
            (A ++ r1 :: (B ++ r2 :: C)) 0 ⟨[], [], []⟩).1.allEmployeeNames
          (firstPass header nameColumn managerColumn titleColumn
            (A ++ r1 :: (B ++ r2 :: C)) 0 ⟨[], [], []⟩).1.employees).2)
    rw [ht, List.count_append, List.count_append]
    have ho : ((rootsAndOrphanErrors
        (firstPass header nameColumn managerColumn titleColumn
          (A ++ r1 :: (B ++ r2 :: C)) 0 ⟨[], [], []⟩).1.allEmployeeNames
        (firstPass header nameColumn managerColumn titleColumn
          (A ++ r1 :: (B ++ r2 :: C)) 0
            ⟨[], [], []⟩).1.employees).2).count
        (dupMsg (A.length + B.length + 3) x) = 0 := by
      refine List.count_eq_zero.2 (fun hmem => ?_)
      obtain ⟨a, b, hab⟩ := rootsAndOrphanErrors_shape _ _ _ hmem
      exact dupMsg_ne_orphan _ _ a b hab
    have htail : t.count (dupMsg (A.length + B.length + 3) x) = 0 := by
      refine List.count_eq_zero.2 (fun hmem => ?_)
      rcases hshape _ hmem with ⟨r, hr⟩ | hr
      · exact dupMsg_ne_circular _ _ r hr
      · exact dupMsg_ne_fuel _ _ hr
    rw [hfp, ho, htail]
  · unfold generateHierarchy
    dsimp only [List.headD, List.drop]
    exact congrArg ParseCore.employees hcore
  · unfold generateHierarchy
    dsimp only [List.headD, List.drop]
    exact congrArg mkHierarchy hcore
  · unfold generateHierarchy
    dsimp only [List.headD, List.drop]
    exact congrArg
      (fun c : ParseCore =>
        (rootsAndOrphanErrors c.allEmployeeNames c.employees).1) hcore

/-- Witness for C9 at a concrete grid with a duplicated name in rows 2 and
3 (the header being row 1). -/
theorem generateHierarchy_duplicate_name_witness :
    ((generateHierarchy [["Name", "Manager"], ["Bob", ""], ["Bob", ""]] 0 1
        none).employees.filter (fun e => e.name = "Bob")).length = 1 ∧
      (generateHierarchy [["Name", "Manager"], ["Bob", ""], ["Bob", ""]] 0 1
        none).errors.count (dupMsg 3 "Bob") = 1 := by
  have h := generateHierarchy_duplicate_name ["Name", "Manager"]
    ["Bob", ""] ["Bob", ""] [] [] [] 0 1 none "Bob" (by decide)
    (by decide) (by decide) (by simp) (by simp) (by simp)
  exact ⟨by simpa using h.1, by simpa using h.2.1⟩

/-! ### No false cycles (claim C6) -/

/-- The step the `dfs` of `detectCircularReporting` actually follows: from
`n` to its manager `m`, provided `n` is a key, its `managerId` is a
non-empty string (JS truthiness), and `m` is itself a key. -/
def dfsStep (h : List (String × HierarchyNode)) (n : String) : Option String :=
  match hfind h n with
  | some node =>
    match node.managerId with
    | some m => if m ≠ "" ∧ (hfind h m).isSome then some m else none
    | none => none
  | none => none

/-- The manager-of relation on the hierarchy's keys: `managerId` links
restricted to keys of the hierarchy map. -/
def managerStep (h : List (String × HierarchyNode)) (n : String) :
    Option String :=
  match hfind h n with
  | some node =>
    match node.managerId with
    | some m => if (hfind h m).isSome then some m else none
    | none => none
  | none => none

/-- Iterates of a partial step function. -/
def stepIter (f : String → Option String) : Nat → String → Option String
  | 0, n => some n
  | j + 1, n => (stepIter f j n).bind f

/-- The manager-of relation on the keys of `h` is a forest: no key returns
to itself in `1 ≤ j ≤ h.length` steps.  In a functional graph a cycle of
any length forces one of length at most the number of keys, so this bounded
(and hence decidable) form is implied by — indeed equivalent to — the
absence of cycles of arbitrary length. -/
def ManagerAcyclic (h : List (String × HierarchyNode)) : Prop :=
  ∀ k ∈ h.map Prod.fst, ∀ j < h.length,
    stepIter (managerStep h) (j + 1) k ≠ some k

theorem hfind_isSome_mem (h : List (String × HierarchyNode)) (k : String)
    (hk : (hfind h k).isSome = true) : k ∈ h.map Prod.fst := by
  unfold hfind at hk
  rcases hp : h.find? (fun p => p.1 = k) with _ | p
  · rw [hp] at hk
    simp at hk
  · have h1 := List.mem_of_find?_eq_some hp
    have h2 := List.find?_some hp
    simp only [decide_eq_true_eq] at h2
    exact h2 ▸ List.mem_map_of_mem Prod.fst h1

theorem dfsStep_imp_managerStep (h : List (String × HierarchyNode))
    (x y : String) (hd : dfsStep h x = some y) : managerStep h x = some y := by
  unfold dfsStep at hd
  unfold managerStep
  rcases hx : hfind h x with _ | node
  · simp [hx] at hd
  · simp only [hx] at hd ⊢
    rcases hm : node.managerId with _ | m
    · simp [hm] at hd
    · simp only [hm] at hd ⊢
      by_cases hc : m ≠ "" ∧ (hfind h m).isSome = true
      · rw [if_pos hc] at hd
        obtain rfl := Option.some.inj hd
        simp [hc.2]
      · simp [hc] at hd

theorem dfsStep_mem (h : List (String × HierarchyNode)) (x y : String)
    (hd : dfsStep h x = some y) : y ∈ h.map Prod.fst := by
  unfold dfsStep at hd
  rcases hx : hfind h x with _ | node
  · simp [hx] at hd
  · simp only [hx] at hd
    rcases hm : node.managerId with _ | m
    · simp [hm] at hd
    · simp only [hm] at hd
      by_cases hc : m ≠ "" ∧ (hfind h m).isSome = true
      · rw [if_pos hc] at hd
        obtain rfl := Option.some.inj hd
        exact hfind_isSome_mem h _ hc.2
      · simp [hc] at hd

theorem stepIter_imp (f g : String → Option String)
    (hfg : ∀ x y, f x = some y → g x = some y) (j : Nat) (k y : String)
    (hj : stepIter f j k = some y) : stepIter g j k = some y := by
  induction j generalizing y with
  | zero => exact hj
  | succ j ih =>
    unfold stepIter at hj ⊢
    obtain ⟨z, hz, hfz⟩ := Option.bind_eq_some.1 hj
    rw [ih z hz]
    exact hfg z y hfz

theorem length_filter_not_mem_cons_lt (l : List String) (v : List String)
    (n : String) (hn : n ∈ l) (hnv : n ∉ v) :
    (l.filter (fun k => k ∉ n :: v)).length <
      (l.filter (fun k => k ∉ v)).length := by
  have heq : l.filter (fun k => k ∉ n :: v)
      = (l.filter (fun k => k ∉ v)).filter (fun k => k ≠ n) := by
    rw [List.filter_filter]
    apply List.filter_congr
    intro k _
    by_cases h1 : k = n <;> by_cases h2 : k ∈ v <;> simp [h1, h2, hnv]
  rw [heq]
  apply List.length_filter_lt_length_iff_exists.2
  exact ⟨n, List.mem_filter.2 ⟨hn, by simpa using hnv⟩, by simp⟩

/-- Under acyclicity, the `dfs` of `detectCircularReporting` appends no
error and restores the recursion stack, provided the stack is a duplicate-
free list of visited keys that step (via `dfsStep`) to the current node. -/
theorem dfsCycle_no_error (h : List (String × HierarchyNode))
    (hacyc : ManagerAcyclic h) :
    ∀ fuel (n : String) (path : List String) (s : DfsState),
      ((h.map Prod.fst).dedup.filter (fun k => k ∉ s.visited)).length < fuel →
      n ∈ h.map Prod.fst →
      s.recStack.Nodup →
      (∀ x ∈ s.recStack, x ∈ h.map Prod.fst) →
      (∀ x ∈ s.recStack, x ∈ s.visited) →
      (∀ i (hi : i < s.recStack.length),
        stepIter (dfsStep h) (i + 1) (s.recStack.get ⟨i, hi⟩) = some n) →
      (dfsCycle h fuel n path s).errors = s.errors ∧
        (dfsCycle h fuel n path s).recStack = s.recStack := by
  intro fuel
  induction fuel with
  | zero => exact fun n path s hcount => absurd hcount (by omega)
  | succ fuel ih =>
    intro n path s hcount hn hnodup hkeys hvis hchain
    unfold dfsCycle
    dsimp only
    by_cases hstack : n ∈ s.recStack
    · exfalso
      obtain ⟨⟨i, hi⟩, hget⟩ := List.mem_iff_get.1 hstack
      have hc := hchain i hi
      rw [hget] at hc
      have hms := stepIter_imp _ _ (dfsStep_imp_managerStep h) _ _ _ hc
      have hlen : s.recStack.length ≤ h.length := by
        have h1 : s.recStack ⊆ (h.map Prod.fst).dedup := fun x hx =>
          List.mem_dedup.2 (hkeys x hx)
        have h2 := (List.Nodup.subperm hnodup h1).length_le
        have h3 := (List.dedup_sublist (h.map Prod.fst)).length_le
        rw [List.length_map] at h3
        omega
      exact hacyc n hn i (lt_of_lt_of_le hi hlen) hms
    · by_cases hvisn : n ∈ s.visited
      · simp [hstack, hvisn]
      · have hnvd : n ∈ (h.map Prod.fst).dedup := List.mem_dedup.2 hn
        have hdec := length_filter_not_mem_cons_lt (h.map Prod.fst).dedup
          s.visited n hnvd hvisn
        simp only [hstack, hvisn, if_neg, ite_false, not_false_iff]
        rcases hnode : hfind h n with _ | node
        · simp [hnode, List.erase_cons_head]
        · rcases hmid : node.managerId with _ | m
          · simp [hnode, hmid, List.erase_cons_head]
          · by_cases hcond : m ≠ "" ∧ (hfind h m).isSome = true
            · have hstep : dfsStep h n = some m := by
                simp [dfsStep, hnode, hmid, hcond]
              have hmkeys : m ∈ h.map Prod.fst := dfsStep_mem h n m hstep
              have hrec := ih m (path ++ [n])
                ⟨n :: s.visited, n :: s.recStack, s.errors⟩
                (by dsimp only; omega)
                hmkeys
                (List.nodup_cons.2 ⟨hstack, hnodup⟩)
                (by
                  intro x hx
                  rcases List.mem_cons.1 hx with rfl | hx
                  · exact hn
                  · exact hkeys x hx)
                (by
                  intro x hx
                  rcases List.mem_cons.1 hx with rfl | hx
                  · exact List.mem_cons_self x _
                  · exact List.mem_cons_of_mem _ (hvis x hx))
                (by
                  intro i hi
                  match i with
                  | 0 => simp [stepIter, hstep]
                  | Nat.succ i =>
                    have hii : i < s.recStack.length := by
                      simpa using hi
                    have hc := hchain i hii
                    show stepIter (dfsStep h) (i + 1 + 1) _ = some m
                    rw [stepIter]
                    have hgg : (n :: s.recStack).get ⟨i + 1, by simpa using hi⟩
                        = s.recStack.get ⟨i, hii⟩ := rfl
                    rw [hgg, hc]
                    simpa [Option.bind] using hstep)
              simp only [hnode, hmid]
              rw [if_pos hcond]
              refine ⟨hrec.1, ?_⟩
              rw [hrec.2]
              exact List.erase_cons_head n s.recStack
            · simp [hnode, hmid, hcond, List.erase_cons_head]

/-- Under acyclicity the driver loop leaves the error list untouched. -/
theorem dfsLoop_no_error (h : List (String × HierarchyNode))
    (hacyc : ManagerAcyclic h) (ks : List String)
    (hks : ∀ k ∈ ks, k ∈ h.map Prod.fst) (s : DfsState)
    (hrs : s.recStack = []) :
    (dfsLoop h ks s).errors = s.errors ∧ (dfsLoop h ks s).recStack = [] := by
  induction ks generalizing s with
  | nil => exact ⟨rfl, hrs⟩
  | cons k ks ih =>
    unfold dfsLoop
    split
    · exact ih (fun x hx => hks x (List.mem_cons_of_mem _ hx)) s hrs
    · have hcount : ((h.map Prod.fst).dedup.filter
          (fun x => x ∉ s.visited)).length < h.length + 1 := by
        have h1 := List.length_filter_le (fun x => x ∉ s.visited)
          (h.map Prod.fst).dedup
        have h2 := (List.dedup_sublist (h.map Prod.fst)).length_le
        rw [List.length_map] at h2
        omega
      have hd := dfsCycle_no_error h hacyc (h.length + 1) k [] s hcount
        (hks k (List.mem_cons_self k ks))
        (hrs ▸ List.nodup_nil)
        (by intro x hx; rw [hrs] at hx; cases hx)
        (by intro x hx; rw [hrs] at hx; cases hx)
        (by intro i hi; rw [hrs] at hi; cases hi)
      have := ih (fun x hx => hks x (List.mem_cons_of_mem _ hx))
        (dfsCycle h (h.length + 1) k [] s) (by rw [hd.2, hrs])
      exact ⟨by rw [this.1, hd.1], this.2⟩

/-- C6: on a hierarchy whose manager-of relation on its keys is a forest,
`detectCircularReporting` appends no circular-reporting error: the error
list is returned unchanged. -/
theorem detectCircularReporting_no_false_cycles
    (h : List (String × HierarchyNode)) (hacyc : ManagerAcyclic h)
    (errs : List String) : detectCircularReporting h errs = errs := by
  unfold detectCircularReporting
  exact (dfsLoop_no_error h hacyc (h.map Prod.fst) (fun k hk => hk)
    ⟨[], [], errs⟩ rfl).1

/-- Witness for C6 on a concrete acyclic two-node hierarchy. -/
theorem detectCircularReporting_no_false_cycles_witness :
    detectCircularReporting
        [("A", ⟨⟨"A", none, none, []⟩, ["B"], none⟩),
         ("B", ⟨⟨"B", none, some "A", []⟩, [], some "A"⟩)]
        ["prior error"] = ["prior error"] :=
  detectCircularReporting_no_false_cycles
    [("A", ⟨⟨"A", none, none, []⟩, ["B"], none⟩),
     ("B", ⟨⟨"B", none, some "A", []⟩, [], some "A"⟩)]
    (by unfold ManagerAcyclic; decide) ["prior error"]

/-- Witness for C5 at a concrete two-employee hierarchy. -/
theorem detectCircularReporting_direct_cycle_witness :
    detectCircularReporting
        [("A", ⟨⟨"A", none, some "B", []⟩, [], some "B"⟩),
         ("B", ⟨⟨"B", none, some "A", []⟩, [], some "A"⟩)] [] =
      ["Circular reporting detected: " ++ "A" ++ " -> " ++ "B" ++ " -> "
        ++ "A"] := by
  have h := detectCircularReporting_direct_cycle "A" "B"
    ⟨"A", none, some "B", []⟩ ⟨"B", none, some "A", []⟩ [] [] []
    (by decide) (by decide) (by decide)
  simpa using h


/-!
## Chart layout (`calculatePositions`, src/unnamed/part_011 lines 104-244)

The chart viewer lays out the positioned tree with constants nodeWidth = 200,
levelHeight = 120, siblingSpacing = 40 and maxChildrenPerRow = 5.  Children of
a node are chunked into rows of at most five (`splitIntoRows`); a node's
subtree width is the maximum row width, never less than 200
(`calculateSubtreeWidth`); a first pass records a vertical offset per node id
in a map (`calculateYOffsets`, embedded as an association list with
last-write-wins lookup `yoffLookup`); a second pass assigns x coordinates row
by row, advancing a cursor by each child's subtree width plus the sibling
spacing (`positionNode`/`positionNodes`).  The source's per-row mutable cursor
loop is embedded as the explicit x-coordinate lists `rowXsGo`/`rowXs`/
`childNodeXs`, consumed in order by `positionChildren` exactly as the source
pushes positioned children row by row into one flat array.
-/


inductive CNode where
  | mk (id name title : String) (level : Nat) (x y : ℚ) (isCollapsed : Bool)
      (children : List CNode)

def CNode.id : CNode → String
  | .mk i _ _ _ _ _ _ _ => i
def CNode.level : CNode → Nat
  | .mk _ _ _ l _ _ _ _ => l
def CNode.x : CNode → ℚ
  | .mk _ _ _ _ x _ _ _ => x
def CNode.y : CNode → ℚ
  | .mk _ _ _ _ _ y _ _ => y
def CNode.children : CNode → List CNode
  | .mk _ _ _ _ _ _ _ cs => cs

def chunk5 : List α → List (List α)
  | [] => []
  | a :: l => (a :: l.take 4) :: chunk5 (l.drop 4)
termination_by l => l.length
decreasing_by
  simp only [List.length_drop, List.length_cons]
  omega

def splitIntoRows (l : List α) : List (List α) :=
  if l.length ≤ 5 then [l] else chunk5 l

def maxQ : List ℚ → ℚ
  | [] => 0
  | x :: xs => xs.foldl max x

def rowWidths (ws : List ℚ) : List ℚ :=
  (splitIntoRows ws).map (fun row => row.sum + ((row.length : ℚ) - 1) * 40)

mutual
def subtreeWidth : CNode → ℚ
  | .mk _ _ _ _ _ _ _ children =>
    if children.isEmpty then 200
    else max 200 (maxQ (rowWidths (subtreeWidthList children)))
def subtreeWidthList : List CNode → List ℚ
  | [] => []
  | c :: cs => subtreeWidth c :: subtreeWidthList cs
end

def maxN : List Nat → Nat
  | [] => 0
  | x :: xs => xs.foldl max x

mutual
def calculateSubtreeHeight : CNode → Nat
  | .mk _ _ _ _ _ _ _ children =>
    if children.isEmpty then 1
    else 1 + ((splitIntoRows children).length - 1) +
      maxN (subtreeHeightList children)
def subtreeHeightList : List CNode → List Nat
  | [] => []
  | c :: cs => calculateSubtreeHeight c :: subtreeHeightList cs
end

def calculateRowYOffset (rows : List (List CNode)) (rowIndex : Nat) : ℚ :=
  ((rows.take rowIndex).map
    (fun row => (maxN (subtreeHeightList row) : ℚ) * 120)).sum

def childYOffs (parentOff : ℚ) (children : List CNode) : List ℚ :=
  ((splitIntoRows children).enum.map (fun p =>
    List.replicate p.2.length
      (parentOff + calculateRowYOffset (splitIntoRows children) p.1))).flatten

mutual
def calcYOffsets : CNode → ℚ → List (String × ℚ)
  | .mk id _ _ _ _ _ _ children, parentOff =>
    (id, parentOff) :: calcYOffsetsChildren children (childYOffs parentOff children)
def calcYOffsetsChildren : List CNode → List ℚ → List (String × ℚ)
  | [], _ => []
  | c :: cs, offs =>
    calcYOffsets c (offs.headD 0) ++ calcYOffsetsChildren cs (offs.tailD [])
end

def calcYOffsetsList : List CNode → List (String × ℚ)
  | [] => []
  | n :: ns => calcYOffsets n 0 ++ calcYOffsetsList ns

def yoffLookup (l : List (String × ℚ)) (k : String) : ℚ :=
  ((l.reverse.find? (fun p => p.1 = k)).map Prod.snd).getD 0

def rowXsGo (childX : ℚ) : List ℚ → List ℚ
  | [] => []
  | w :: ws => (childX + w / 2 - 100) :: rowXsGo (childX + w + 40) ws

def rowXs (pcx : ℚ) (row : List ℚ) : List ℚ :=
  rowXsGo (pcx - (row.sum + ((row.length : ℚ) - 1) * 40) / 2) row

def childNodeXs (pcx : ℚ) (ws : List ℚ) : List ℚ :=
  ((splitIntoRows ws).map (rowXs pcx)).flatten

mutual
def positionNode (yoffs : List (String × ℚ)) : CNode → ℚ → ℚ → CNode
  | .mk id name title level _ _ isCollapsed children, nodeX, startY =>
    .mk id name title level nodeX
      (startY + (level : ℚ) * 120 + yoffLookup yoffs id) isCollapsed
      (if children.isEmpty then []
       else positionChildren yoffs children
         (childNodeXs (nodeX + 100) (subtreeWidthList children)) startY)
def positionChildren (yoffs : List (String × ℚ)) :
    List CNode → List ℚ → ℚ → List CNode
  | [], _, _ => []
  | c :: cs, xs, startY =>
    positionNode yoffs c (xs.headD 0) startY ::
      positionChildren yoffs cs (xs.tailD []) startY
end

def positionNodes (yoffs : List (String × ℚ)) :
    List CNode → ℚ → ℚ → List CNode
  | [], _, _ => []
  | n :: ns, startX, startY =>
    positionNode yoffs n (startX + subtreeWidth n / 2 - 100) startY ::
      positionNodes yoffs ns (startX + subtreeWidth n + 40) startY

def calculatePositions (nodes : List CNode) : List CNode :=
  positionNodes (calcYOffsetsList nodes) nodes 0 50

mutual
def allNodes : CNode → List CNode
  | .mk id name title level x y c children =>
    .mk id name title level x y c children :: allNodesList children
def allNodesList : List CNode → List CNode
  | [] => []
  | c :: cs => allNodes c ++ allNodesList cs
end

def getAllNodes (ns : List CNode) : List CNode := allNodesList ns

lemma le_subtreeWidth (c : CNode) : 200 ≤ subtreeWidth c := by
  cases c with
  | mk i n t l x y col cs =>
    rw [subtreeWidth]
    split
    · exact le_refl _
    · exact le_max_left _ _

lemma subtreeWidth_pos (c : CNode) : 0 < subtreeWidth c :=
  lt_of_lt_of_le (by norm_num) (le_subtreeWidth c)

lemma subtreeWidthList_eq_map (cs : List CNode) :
    subtreeWidthList cs = cs.map subtreeWidth := by
  induction cs with
  | nil => rw [subtreeWidthList]; rfl
  | cons c cs ih => rw [subtreeWidthList, ih]; rfl

lemma chunk5_nil : chunk5 ([] : List α) = [] := by rw [chunk5]

lemma chunk5_cons (a : α) (l : List α) :
    chunk5 (a :: l) = (a :: l.take 4) :: chunk5 (l.drop 4) := by rw [chunk5]

lemma chunk5_ne_nil (l : List α) (h : l ≠ []) : chunk5 l ≠ [] := by
  cases l with
  | nil => exact absurd rfl h
  | cons a t => rw [chunk5_cons]; exact List.cons_ne_nil _ _

lemma chunk5_short (l : List α) (h : l ≠ []) (h5 : l.length ≤ 5) :
    chunk5 l = [l] := by
  cases l with
  | nil => exact absurd rfl h
  | cons a t =>
    rw [chunk5_cons]
    have ht : t.length ≤ 4 := by simpa using h5
    rw [List.take_of_length_le ht, List.drop_eq_nil_of_le ht, chunk5_nil]

lemma chunk5_append5 (a b : List α) (ha : a.length = 5) :
    chunk5 (a ++ b) = a :: chunk5 b := by
  cases a with
  | nil => simp at ha
  | cons x a' =>
    have ha' : a'.length = 4 := by simpa using ha
    rw [List.cons_append, chunk5_cons]
    rw [show (4 : Nat) = a'.length from ha'.symm]
    rw [List.take_left, List.drop_left]

lemma chunk5_flatten : ∀ (n : Nat) (l : List α), l.length ≤ n →
    (chunk5 l).flatten = l := by
  intro n
  induction n with
  | zero =>
    intro l h
    rw [List.length_eq_zero.1 (Nat.le_zero.1 h), chunk5_nil]
    rfl
  | succ n ih =>
    intro l h
    cases l with
    | nil => rw [chunk5_nil]; rfl
    | cons a t =>
      rw [chunk5_cons, List.flatten_cons, ih (t.drop 4) (by simp at h ⊢; omega),
        List.cons_append, List.take_append_drop]


lemma chunk5_zipWith (f : α → β → γ) : ∀ (n : Nat) (l1 : List α) (l2 : List β),
    l1.length ≤ n → l1.length = l2.length →
    chunk5 (List.zipWith f l1 l2) = List.zipWith (List.zipWith f) (chunk5 l1) (chunk5 l2) := by
  intro n
  induction n with
  | zero =>
    intro l1 l2 h1 _
    rw [List.length_eq_zero.1 (Nat.le_zero.1 h1)]
    simp [chunk5_nil]
  | succ n ih =>
    intro l1 l2 h1 h2
    cases l1 with
    | nil => simp [chunk5_nil]
    | cons a t1 =>
      cases l2 with
      | nil => simp at h2
      | cons b t2 =>
        have ht : t1.length = t2.length := by simpa using h2
        rw [List.zipWith_cons_cons, chunk5_cons, chunk5_cons a, chunk5_cons b,
          List.zipWith_cons_cons, List.take_zipWith, List.drop_zipWith,
          ih (t1.drop 4) (t2.drop 4) (by simp at h1 ⊢; omega) (by simp [ht]),
          List.zipWith_cons_cons]

lemma chunk5_map (g : α → β) : ∀ (n : Nat) (l : List α), l.length ≤ n →
    chunk5 (l.map g) = (chunk5 l).map (List.map g) := by
  intro n
  induction n with
  | zero =>
    intro l h
    rw [List.length_eq_zero.1 (Nat.le_zero.1 h)]
    simp [chunk5_nil]
  | succ n ih =>
    intro l h
    cases l with
    | nil => simp [chunk5_nil]
    | cons a t =>
      rw [List.map_cons, chunk5_cons, chunk5_cons a, List.map_cons,
        ← List.map_take, ← List.map_drop, ih (t.drop 4) (by simp at h ⊢; omega),
        List.map_cons]

lemma splitIntoRows_zipWith (f : α → β → γ) (l1 : List α) (l2 : List β)
    (h : l1.length = l2.length) :
    splitIntoRows (List.zipWith f l1 l2) =
      List.zipWith (List.zipWith f) (splitIntoRows l1) (splitIntoRows l2) := by
  have hz : (List.zipWith f l1 l2).length = l1.length := by simp [h]
  unfold splitIntoRows
  rw [hz, h]
  by_cases h5 : l2.length ≤ 5
  · rw [if_pos h5, if_pos h5, if_pos h5]
    simp
  · rw [if_neg h5, if_neg h5, if_neg h5]
    exact chunk5_zipWith f l1.length l1 l2 (le_refl _) h

lemma splitIntoRows_map (g : α → β) (l : List α) :
    splitIntoRows (l.map g) = (splitIntoRows l).map (List.map g) := by
  unfold splitIntoRows
  rw [List.length_map]
  by_cases h5 : l.length ≤ 5
  · rw [if_pos h5, if_pos h5]
    rfl
  · rw [if_neg h5, if_neg h5]
    exact chunk5_map g l.length l (le_refl _)

def RowsOK : List (List α) → Prop
  | [] => True
  | [r] => r ≠ [] ∧ r.length ≤ 5
  | r :: rest => r.length = 5 ∧ RowsOK rest

lemma rowsOK_nil : RowsOK ([] : List (List α)) := trivial

lemma rowsOK_single (r : List α) (h1 : r ≠ []) (h5 : r.length ≤ 5) :
    RowsOK [r] := by
  rw [RowsOK]
  exact ⟨h1, h5⟩

lemma rowsOK_cons (r r2 : List α) (rs : List (List α)) :
    RowsOK (r :: r2 :: rs) ↔ r.length = 5 ∧ RowsOK (r2 :: rs) := by
  rw [RowsOK]
  simp

lemma chunk5_rowsOK : ∀ (n : Nat) (l : List α), l.length ≤ n →
    RowsOK (chunk5 l) := by
  intro n
  induction n with
  | zero =>
    intro l h
    rw [List.length_eq_zero.1 (Nat.le_zero.1 h), chunk5_nil]
    exact rowsOK_nil
  | succ n ih =>
    intro l h
    cases l with
    | nil => rw [chunk5_nil]; exact rowsOK_nil
    | cons a t =>
      rw [chunk5_cons]
      by_cases ht : t.length ≤ 4
      · rw [List.drop_eq_nil_of_le ht, chunk5_nil]
        exact rowsOK_single _ (List.cons_ne_nil _ _) (by simp only [List.length_cons, List.length_take]; omega)
      · have hd : t.drop 4 ≠ [] := by
          simp only [ne_eq, List.drop_eq_nil_iff, not_le]
          omega
        cases hcd : chunk5 (t.drop 4) with
        | nil => exact absurd hcd (chunk5_ne_nil _ hd)
        | cons r2 rs =>
          rw [rowsOK_cons]
          constructor
          · simp
            omega
          · rw [← hcd]
            exact ih (t.drop 4) (by simp at h ⊢; omega)

lemma rowsOK_flatten_map (g : List α → List β) :
    ∀ (rows : List (List α)), RowsOK rows →
    (∀ r ∈ rows, (g r).length = r.length) →
    chunk5 ((rows.map g).flatten) = rows.map g := by
  intro rows
  induction rows with
  | nil =>
    intro _ _
    simp [chunk5_nil]
  | cons r rest ih =>
    intro hok hg
    cases rest with
    | nil =>
      rw [RowsOK] at hok
      simp only [List.map_cons, List.map_nil, List.flatten_cons,
        List.flatten_nil, List.append_nil]
      have hlen : (g r).length = r.length := hg r (by simp)
      rw [chunk5_short (g r) ?_ ?_]
      · intro hc
        rw [hc] at hlen
        exact hok.1 (List.length_eq_zero.1 hlen.symm)
      · rw [hlen]
        exact hok.2
    | cons r2 rs =>
      rw [rowsOK_cons] at hok
      simp only [List.map_cons, List.flatten_cons]
      rw [chunk5_append5 _ _ (by rw [hg r (by simp)]; exact hok.1)]
      have hih := ih hok.2 (fun x hx => hg x (List.mem_cons_of_mem _ hx))
      simp only [List.map_cons, List.flatten_cons] at hih
      rw [hih]

lemma splitIntoRows_flatten (l : List α) : (splitIntoRows l).flatten = l := by
  unfold splitIntoRows
  by_cases h5 : l.length ≤ 5
  · rw [if_pos h5]
    simp
  · rw [if_neg h5]
    exact chunk5_flatten l.length l (le_refl _)

lemma flatten_map_length (g : List α → List β) :
    ∀ (rows : List (List α)), (∀ r ∈ rows, (g r).length = r.length) →
    ((rows.map g).flatten).length = rows.flatten.length := by
  intro rows
  induction rows with
  | nil => intro _; rfl
  | cons r rest ih =>
    intro hg
    simp only [List.map_cons, List.flatten_cons, List.length_append]
    rw [hg r (by simp), ih (fun x hx => hg x (List.mem_cons_of_mem _ hx))]

lemma splitIntoRows_flatten_map (g : List α → List α) (l : List α)
    (hg : ∀ r ∈ splitIntoRows l, (g r).length = r.length) :
    splitIntoRows (((splitIntoRows l).map g).flatten) = (splitIntoRows l).map g := by
  have hlen : (((splitIntoRows l).map g).flatten).length = l.length := by
    rw [flatten_map_length g _ hg, splitIntoRows_flatten]
  by_cases h5 : l.length ≤ 5
  · have hrows : splitIntoRows l = [l] := by unfold splitIntoRows; rw [if_pos h5]
    rw [hrows]
    simp only [List.map_cons, List.map_nil, List.flatten_cons, List.flatten_nil,
      List.append_nil]
    have : (g l).length = l.length := by
      rw [hrows] at hg
      exact hg l (by simp)
    unfold splitIntoRows
    rw [this, if_pos h5]
  · have hrows : splitIntoRows l = chunk5 l := by unfold splitIntoRows; rw [if_neg h5]
    rw [hrows] at hg hlen ⊢
    unfold splitIntoRows
    rw [hlen, if_neg h5]
    exact rowsOK_flatten_map g (chunk5 l) (chunk5_rowsOK l.length l (le_refl _)) hg


lemma rowXsGo_length (x : ℚ) (ws : List ℚ) :
    (rowXsGo x ws).length = ws.length := by
  induction ws generalizing x with
  | nil => rfl
  | cons w ws ih => rw [rowXsGo]; simp [ih]

lemma rowXs_length (pcx : ℚ) (row : List ℚ) : (rowXs pcx row).length = row.length :=
  rowXsGo_length _ _

lemma childNodeXs_length (pcx : ℚ) (ws : List ℚ) :
    (childNodeXs pcx ws).length = ws.length := by
  unfold childNodeXs
  rw [flatten_map_length (rowXs pcx) _ (fun r _ => rowXs_length pcx r),
    splitIntoRows_flatten]

lemma zipWith_congr_left (f g : α → β → γ) :
    ∀ (l1 : List α) (l2 : List β), (∀ a ∈ l1, ∀ b, f a b = g a b) →
    List.zipWith f l1 l2 = List.zipWith g l1 l2 := by
  intro l1
  induction l1 with
  | nil => intro l2 _; rfl
  | cons a t ih =>
    intro l2 h
    cases l2 with
    | nil => rfl
    | cons b t2 =>
      rw [List.zipWith_cons_cons, List.zipWith_cons_cons,
        h a (by simp) b, ih t2 (fun x hx b2 => h x (List.mem_cons_of_mem _ hx) b2)]

lemma zipWith_const_left (f : α → γ) :
    ∀ (l1 : List α) (l2 : List β), l1.length = l2.length →
    List.zipWith (fun a _ => f a) l1 l2 = l1.map f := by
  intro l1
  induction l1 with
  | nil => intro l2 _; rfl
  | cons a t ih =>
    intro l2 h
    cases l2 with
    | nil => simp at h
    | cons b t2 =>
      rw [List.zipWith_cons_cons, List.map_cons, ih t2 (by simpa using h)]

lemma mem_zipWith (f : α → β → γ) :
    ∀ (l1 : List α) (l2 : List β) (c : γ), c ∈ List.zipWith f l1 l2 →
    ∃ a ∈ l1, ∃ b ∈ l2, c = f a b := by
  intro l1
  induction l1 with
  | nil => intro l2 c h; simp at h
  | cons a t ih =>
    intro l2 c h
    cases l2 with
    | nil => simp at h
    | cons b t2 =>
      rw [List.zipWith_cons_cons, List.mem_cons] at h
      rcases h with h | h
      · exact ⟨a, by simp, b, by simp, h⟩
      · obtain ⟨a2, ha, b2, hb, he⟩ := ih t2 c h
        exact ⟨a2, List.mem_cons_of_mem _ ha, b2, List.mem_cons_of_mem _ hb, he⟩

lemma getElem?_zipWith_decomp (f : α → β → γ) (l1 : List α) (l2 : List β)
    (k : Nat) (c : γ) (h : (List.zipWith f l1 l2)[k]? = some c) :
    ∃ a b, l1[k]? = some a ∧ l2[k]? = some b ∧ c = f a b := by
  rw [List.getElem?_zipWith] at h
  cases h1 : l1[k]? with
  | none => rw [h1] at h; simp at h
  | some a =>
    cases h2 : l2[k]? with
    | none => rw [h1, h2] at h; simp at h
    | some b =>
      rw [h1, h2] at h
      simp only [Option.some.injEq] at h
      exact ⟨a, b, rfl, rfl, h.symm⟩


lemma rowXsGo_lo :
    ∀ (ws : List ℚ) (x0 : ℚ) (k : Nat) (wk xk : ℚ),
    (∀ w ∈ ws, 0 < w) → ws[k]? = some wk → (rowXsGo x0 ws)[k]? = some xk →
    x0 - 100 ≤ xk - wk / 2 := by
  intro ws
  induction ws with
  | nil => intro x0 k wk xk _ hw _; simp at hw
  | cons w ws ih =>
    intro x0 k wk xk hpos hw hx
    rw [rowXsGo] at hx
    cases k with
    | zero =>
      simp only [List.getElem?_cons_zero, Option.some.injEq] at hw hx
      rw [← hw, ← hx]
      ring_nf
      linarith
    | succ k =>
      simp only [List.getElem?_cons_succ] at hw hx
      have hb := ih (x0 + w + 40) k wk xk
        (fun u hu => hpos u (List.mem_cons_of_mem _ hu)) hw hx
      have hwpos : 0 < w := hpos w (by simp)
      linarith

lemma rowXsGo_sep :
    ∀ (ws : List ℚ) (x0 : ℚ) (i j : Nat) (wi wj xi xj : ℚ),
    (∀ w ∈ ws, 0 < w) → i < j →
    ws[i]? = some wi → ws[j]? = some wj →
    (rowXsGo x0 ws)[i]? = some xi → (rowXsGo x0 ws)[j]? = some xj →
    xi + wi / 2 < xj - wj / 2 := by
  intro ws
  induction ws with
  | nil => intro x0 i j wi wj xi xj _ _ hw _ _ _; simp at hw
  | cons w ws ih =>
    intro x0 i j wi wj xi xj hpos hij hwi hwj hxi hxj
    rw [rowXsGo] at hxi hxj
    cases i with
    | zero =>
      cases j with
      | zero => exact absurd hij (lt_irrefl 0)
      | succ j =>
        simp only [List.getElem?_cons_zero, List.getElem?_cons_succ,
          Option.some.injEq] at hwi hwj hxi hxj
        have hb := rowXsGo_lo ws (x0 + w + 40) j wj xj
          (fun u hu => hpos u (List.mem_cons_of_mem _ hu)) hwj hxj
        rw [← hwi, ← hxi]
        linarith
    | succ i =>
      cases j with
      | zero => omega
      | succ j =>
        simp only [List.getElem?_cons_succ] at hwi hwj hxi hxj
        exact ih (x0 + w + 40) i j wi wj xi xj
          (fun u hu => hpos u (List.mem_cons_of_mem _ hu))
          (by omega) hwi hwj hxi hxj

lemma positionNode_x (yoffs : List (String × ℚ)) (c : CNode) (nodeX startY : ℚ) :
    (positionNode yoffs c nodeX startY).x = nodeX := by
  cases c with
  | mk i n t l x y col cs => rw [positionNode]; rfl

lemma positionNode_children (yoffs : List (String × ℚ))
    (i n t : String) (l : Nat) (x y : ℚ) (col : Bool) (cs : List CNode)
    (nodeX startY : ℚ) :
    (positionNode yoffs (.mk i n t l x y col cs) nodeX startY).children =
      (if cs.isEmpty then []
       else positionChildren yoffs cs
         (childNodeXs (nodeX + 100) (subtreeWidthList cs)) startY) := by
  rw [positionNode]; rfl

lemma positionChildren_eq_zipWith (yoffs : List (String × ℚ)) (startY : ℚ) :
    ∀ (cs : List CNode) (xs : List ℚ), xs.length = cs.length →
    positionChildren yoffs cs xs startY =
      List.zipWith (fun c x => positionNode yoffs c x startY) cs xs := by
  intro cs
  induction cs with
  | nil => intro xs _; rw [positionChildren]; rfl
  | cons c cs ih =>
    intro xs h
    cases xs with
    | nil => simp at h
    | cons x xs =>
      rw [positionChildren, List.zipWith_cons_cons]
      simp only [List.headD_cons, List.tailD_cons]
      rw [ih xs (by simpa using h)]


lemma subtreeWidth_positionNode (yoffs : List (String × ℚ)) :
    ∀ (n : Nat) (c : CNode), sizeOf c ≤ n → ∀ (x sy : ℚ),
    subtreeWidth (positionNode yoffs c x sy) = subtreeWidth c := by
  intro n
  induction n with
  | zero =>
    intro c h
    cases c with
    | mk i nm t l x0 y0 col cs =>
      simp only [CNode.mk.sizeOf_spec] at h
      omega
  | succ n ih =>
    intro c h x sy
    cases c with
    | mk i nm t l x0 y0 col cs =>
      cases cs with
      | nil =>
        rw [positionNode]
        simp only [List.isEmpty_nil, if_true]
        rw [subtreeWidth, subtreeWidth]
      | cons c0 cs0 =>
        rw [positionNode]
        simp only [List.isEmpty_cons, Bool.false_eq_true, if_false]
        have hlen : (childNodeXs (x + 100) (subtreeWidthList (c0 :: cs0))).length =
            (c0 :: cs0).length := by
          rw [childNodeXs_length, subtreeWidthList_eq_map, List.length_map]
        rw [positionChildren_eq_zipWith yoffs sy (c0 :: cs0) _ hlen]
        rw [subtreeWidth, subtreeWidth]
        have hzlen : (List.zipWith (fun c x2 => positionNode yoffs c x2 sy)
            (c0 :: cs0) (childNodeXs (x + 100) (subtreeWidthList (c0 :: cs0)))).length =
            (c0 :: cs0).length := by
          rw [List.length_zipWith, hlen, min_self]
        have hzne : (List.zipWith (fun c x2 => positionNode yoffs c x2 sy)
            (c0 :: cs0) (childNodeXs (x + 100) (subtreeWidthList (c0 :: cs0)))).isEmpty
            = false := by
          cases hL : List.zipWith (fun c x2 => positionNode yoffs c x2 sy)
              (c0 :: cs0) (childNodeXs (x + 100) (subtreeWidthList (c0 :: cs0))) with
          | nil => rw [hL] at hzlen; simp at hzlen
          | cons a as => rfl
        rw [hzne]
        simp only [List.isEmpty_cons, Bool.false_eq_true, if_false]
        have hsw : subtreeWidthList (List.zipWith (fun c x2 => positionNode yoffs c x2 sy)
            (c0 :: cs0) (childNodeXs (x + 100) (subtreeWidthList (c0 :: cs0)))) =
            subtreeWidthList (c0 :: cs0) := by
          rw [subtreeWidthList_eq_map, subtreeWidthList_eq_map, List.map_zipWith]
          have hlen2 : (c0 :: cs0).length =
              (childNodeXs (x + 100) (List.map subtreeWidth (c0 :: cs0))).length := by
            rw [← subtreeWidthList_eq_map]
            exact hlen.symm
          rw [zipWith_congr_left _ (fun c _ => subtreeWidth c) _ _ ?_]
          · exact zipWith_const_left subtreeWidth _ _ hlen2
          · intro a ha b
            apply ih
            have h1 : sizeOf a < sizeOf (c0 :: cs0) := List.sizeOf_lt_of_mem ha
            simp only [CNode.mk.sizeOf_spec] at h
            omega
        rw [hsw]


lemma positioned_row_sep (yoffs : List (String × ℚ)) (csrow : List CNode)
    (pcx sy : ℚ) (i j : Nat) (ci cj : CNode) (hij : i < j)
    (hi : (List.zipWith (fun c x => positionNode yoffs c x sy) csrow
      (rowXs pcx (csrow.map subtreeWidth)))[i]? = some ci)
    (hj : (List.zipWith (fun c x => positionNode yoffs c x sy) csrow
      (rowXs pcx (csrow.map subtreeWidth)))[j]? = some cj) :
    ci.x + subtreeWidth ci / 2 < cj.x - subtreeWidth cj / 2 := by
  obtain ⟨a, xa, ha, hxa, hea⟩ := getElem?_zipWith_decomp _ _ _ _ _ hi
  obtain ⟨b, xb, hb, hxb, heb⟩ := getElem?_zipWith_decomp _ _ _ _ _ hj
  subst hea heb
  rw [positionNode_x, positionNode_x,
    subtreeWidth_positionNode yoffs (sizeOf a) a (le_refl _),
    subtreeWidth_positionNode yoffs (sizeOf b) b (le_refl _)]
  have hwa : (csrow.map subtreeWidth)[i]? = some (subtreeWidth a) := by
    rw [List.getElem?_map, ha]
    rfl
  have hwb : (csrow.map subtreeWidth)[j]? = some (subtreeWidth b) := by
    rw [List.getElem?_map, hb]
    rfl
  have hpos : ∀ w ∈ csrow.map subtreeWidth, 0 < w := by
    intro w hw
    obtain ⟨c, _, hc⟩ := List.mem_map.1 hw
    exact hc ▸ subtreeWidth_pos c
  unfold rowXs at hxa hxb
  exact rowXsGo_sep (csrow.map subtreeWidth) _ i j _ _ xa xb hpos hij hwa hwb hxa hxb

def rowsDisjoint (p : CNode) : Prop :=
  ∀ row ∈ splitIntoRows p.children, ∀ (i j : Nat) (ci cj : CNode), i < j →
    row[i]? = some ci → row[j]? = some cj →
    ci.x + subtreeWidth ci / 2 < cj.x - subtreeWidth cj / 2

lemma rowsDisjoint_positionNode (yoffs : List (String × ℚ)) (c : CNode)
    (x sy : ℚ) : rowsDisjoint (positionNode yoffs c x sy) := by
  cases c with
  | mk i0 nm t l x0 y0 col cs =>
    intro row hrow i j ci cj hij hi hj
    rw [positionNode_children] at hrow
    cases cs with
    | nil =>
      simp only [List.isEmpty_nil, if_true] at hrow
      have hempty : splitIntoRows ([] : List CNode) = [[]] := by
        unfold splitIntoRows
        rw [if_pos (by simp)]
      rw [hempty] at hrow
      simp only [List.mem_singleton] at hrow
      rw [hrow] at hi
      simp at hi
    | cons c0 cs0 =>
      simp only [List.isEmpty_cons, Bool.false_eq_true, if_false] at hrow
      have hlen : (childNodeXs (x + 100) (subtreeWidthList (c0 :: cs0))).length =
          (c0 :: cs0).length := by
        rw [childNodeXs_length, subtreeWidthList_eq_map, List.length_map]
      rw [positionChildren_eq_zipWith yoffs sy (c0 :: cs0) _ hlen] at hrow
      have hxs : splitIntoRows (childNodeXs (x + 100) (subtreeWidthList (c0 :: cs0))) =
          (splitIntoRows (subtreeWidthList (c0 :: cs0))).map
            (rowXs (x + 100)) := by
        unfold childNodeXs
        exact splitIntoRows_flatten_map _ _ (fun r _ => rowXs_length _ r)
      have hsplit : splitIntoRows (List.zipWith (fun c x2 => positionNode yoffs c x2 sy)
          (c0 :: cs0) (childNodeXs (x + 100) (subtreeWidthList (c0 :: cs0)))) =
          List.zipWith (List.zipWith (fun c x2 => positionNode yoffs c x2 sy))
            (splitIntoRows (c0 :: cs0))
            ((splitIntoRows (c0 :: cs0)).map
              (fun r => rowXs (x + 100) (r.map subtreeWidth))) := by
        rw [splitIntoRows_zipWith _ _ _ hlen.symm, hxs, subtreeWidthList_eq_map,
          splitIntoRows_map, List.map_map]
        rfl
      rw [hsplit] at hrow
      obtain ⟨k, hk⟩ := List.get?_of_mem hrow
      rw [List.get?_eq_getElem?] at hk
      obtain ⟨csrow, xrow, hcs, hxr, hre⟩ := getElem?_zipWith_decomp _ _ _ _ _ hk
      rw [List.getElem?_map, hcs] at hxr
      simp only [Option.map_some', Option.some.injEq] at hxr
      rw [hre, ← hxr] at hi hj
      exact positioned_row_sep yoffs csrow (x + 100) sy i j ci cj hij hi hj


lemma mem_allNodesList (m : CNode) :
    ∀ (L : List CNode), m ∈ allNodesList L → ∃ e ∈ L, m ∈ allNodes e := by
  intro L
  induction L with
  | nil => intro h; rw [allNodesList] at h; simp at h
  | cons c cs ih =>
    intro h
    rw [allNodesList, List.mem_append] at h
    rcases h with h | h
    · exact ⟨c, by simp, h⟩
    · obtain ⟨e, he, hm⟩ := ih h
      exact ⟨e, List.mem_cons_of_mem _ he, hm⟩

lemma allNodes_positionNode (yoffs : List (String × ℚ)) :
    ∀ (n : Nat) (c : CNode), sizeOf c ≤ n → ∀ (x sy : ℚ) (m : CNode),
    m ∈ allNodes (positionNode yoffs c x sy) →
    ∃ c2 x2, m = positionNode yoffs c2 x2 sy := by
  intro n
  induction n with
  | zero =>
    intro c h
    cases c with
    | mk i nm t l x0 y0 col cs =>
      simp only [CNode.mk.sizeOf_spec] at h
      omega
  | succ n ih =>
    intro c h x sy m hm
    cases c with
    | mk i nm t l x0 y0 col cs =>
      rw [positionNode] at hm
      rw [allNodes, List.mem_cons] at hm
      rcases hm with hm | hm
      · refine ⟨CNode.mk i nm t l x0 y0 col cs, x, ?_⟩
        rw [positionNode, hm]
      · cases cs with
        | nil =>
          simp only [List.isEmpty_nil, if_true] at hm
          rw [allNodesList] at hm
          simp at hm
        | cons c0 cs0 =>
          simp only [List.isEmpty_cons, Bool.false_eq_true, if_false] at hm
          have hlen : (childNodeXs (x + 100) (subtreeWidthList (c0 :: cs0))).length =
              (c0 :: cs0).length := by
            rw [childNodeXs_length, subtreeWidthList_eq_map, List.length_map]
          rw [positionChildren_eq_zipWith yoffs sy (c0 :: cs0) _ hlen] at hm
          obtain ⟨e, he, hme⟩ := mem_allNodesList m _ hm
          obtain ⟨a, ha, b, _, hab⟩ := mem_zipWith _ _ _ _ he
          rw [hab] at hme
          apply ih a ?_ b sy m hme
          have h1 : sizeOf a < sizeOf (c0 :: cs0) := List.sizeOf_lt_of_mem ha
          simp only [CNode.mk.sizeOf_spec] at h
          omega

lemma mem_positionNodes (yoffs : List (String × ℚ)) (sy : ℚ) (m : CNode) :
    ∀ (ts : List CNode) (sx : ℚ), m ∈ positionNodes yoffs ts sx sy →
    ∃ t x2, t ∈ ts ∧ m = positionNode yoffs t x2 sy := by
  intro ts
  induction ts with
  | nil => intro sx h; rw [positionNodes] at h; simp at h
  | cons t ts ih =>
    intro sx h
    rw [positionNodes, List.mem_cons] at h
    rcases h with h | h
    · exact ⟨t, _, by simp, h⟩
    · obtain ⟨t2, x2, ht2, hm2⟩ := ih _ h
      exact ⟨t2, x2, List.mem_cons_of_mem _ ht2, hm2⟩

lemma rowsDisjoint_getAllNodes (ts : List CNode) :
    ∀ m ∈ getAllNodes (calculatePositions ts), rowsDisjoint m := by
  intro m hm
  unfold getAllNodes calculatePositions at hm
  obtain ⟨e, he, hme⟩ := mem_allNodesList m _ hm
  obtain ⟨t, x2, _, het⟩ := mem_positionNodes _ _ e _ _ he
  rw [het] at hme
  obtain ⟨c2, x3, hmc⟩ := allNodes_positionNode _ (sizeOf t) t (le_refl _) _ _ m hme
  rw [hmc]
  exact rowsDisjoint_positionNode _ c2 x3 50

lemma positionNodes_lo (yoffs : List (String × ℚ)) (sy : ℚ) :
    ∀ (ts : List CNode) (sx : ℚ) (j : Nat) (tj : CNode),
    (positionNodes yoffs ts sx sy)[j]? = some tj →
    sx - 100 ≤ tj.x - subtreeWidth tj / 2 := by
  intro ts
  induction ts with
  | nil => intro sx j tj h; rw [positionNodes] at h; simp at h
  | cons t ts ih =>
    intro sx j tj h
    rw [positionNodes] at h
    cases j with
    | zero =>
      simp only [List.getElem?_cons_zero, Option.some.injEq] at h
      rw [← h, positionNode_x,
        subtreeWidth_positionNode yoffs (sizeOf t) t (le_refl _)]
      ring_nf
      linarith
    | succ j =>
      simp only [List.getElem?_cons_succ] at h
      have hb := ih (sx + subtreeWidth t + 40) j tj h
      have hw : 0 < subtreeWidth t := subtreeWidth_pos t
      linarith

lemma positionNodes_sep (yoffs : List (String × ℚ)) (sy : ℚ) :
    ∀ (ts : List CNode) (sx : ℚ) (i j : Nat) (ti tj : CNode), i < j →
    (positionNodes yoffs ts sx sy)[i]? = some ti →
    (positionNodes yoffs ts sx sy)[j]? = some tj →
    ti.x + subtreeWidth ti / 2 < tj.x - subtreeWidth tj / 2 := by
  intro ts
  induction ts with
  | nil => intro sx i j ti tj _ hi _; rw [positionNodes] at hi; simp at hi
  | cons t ts ih =>
    intro sx i j ti tj hij hi hj
    rw [positionNodes] at hi hj
    cases i with
    | zero =>
      cases j with
      | zero => exact absurd hij (lt_irrefl 0)
      | succ j =>
        simp only [List.getElem?_cons_zero, List.getElem?_cons_succ,
          Option.some.injEq] at hi hj
        have hb := positionNodes_lo yoffs sy ts (sx + subtreeWidth t + 40) j tj hj
        rw [← hi, positionNode_x,
          subtreeWidth_positionNode yoffs (sizeOf t) t (le_refl _)]
        linarith
    | succ i =>
      cases j with
      | zero => omega
      | succ j =>
        simp only [List.getElem?_cons_succ] at hi hj
        exact ih (sx + subtreeWidth t + 40) i j ti tj (by omega) hi hj


def chartLeaf (i : String) : CNode := .mk i "" "" 1 0 0 false []

def sixLeafRoot : CNode := .mk "p" "" "" 0 0 0 false
  [chartLeaf "c0", chartLeaf "c1", chartLeaf "c2", chartLeaf "c3",
   chartLeaf "c4", chartLeaf "c5"]

lemma calculatePositions_sixLeafRoot :
    calculatePositions [sixLeafRoot] = [CNode.mk "p" "" "" 0 480 50 false
      [CNode.mk "c0" "" "" 1 0 170 false [],
       CNode.mk "c1" "" "" 1 240 170 false [],
       CNode.mk "c2" "" "" 1 480 170 false [],
       CNode.mk "c3" "" "" 1 720 170 false [],
       CNode.mk "c4" "" "" 1 960 170 false [],
       CNode.mk "c5" "" "" 1 480 290 false []]] := by
  norm_num [calculatePositions, positionNodes, positionNode, positionChildren,
    calcYOffsetsList, calcYOffsets, calcYOffsetsChildren, childYOffs,
    childNodeXs, rowXs, rowXsGo, splitIntoRows, chunk5, subtreeWidth,
    subtreeWidthList, rowWidths, maxQ, maxN, calculateRowYOffset,
    subtreeHeightList, calculateSubtreeHeight, yoffLookup, sixLeafRoot,
    chartLeaf, List.find?, List.enum, List.enumFrom, List.replicate,
    List.take, List.sum, List.tail?, List.head?, List.headD, List.tailD,
    List.foldl, List.flatten]
  simp only [String.reduceEq, decide_False, decide_True]
  norm_num

lemma calculatePositions_pairLeaves :
    calculatePositions [chartLeaf "a", chartLeaf "b"] =
      [CNode.mk "a" "" "" 1 0 170 false [],
       CNode.mk "b" "" "" 1 240 170 false []] := by
  norm_num [calculatePositions, positionNodes, positionNode, positionChildren,
    calcYOffsetsList, calcYOffsets, calcYOffsetsChildren, childYOffs,
    childNodeXs, rowXs, rowXsGo, splitIntoRows, chunk5, subtreeWidth,
    subtreeWidthList, rowWidths, maxQ, maxN, calculateRowYOffset,
    subtreeHeightList, calculateSubtreeHeight, yoffLookup, chartLeaf,
    List.find?, List.enum, List.enumFrom, List.replicate,
    List.take, List.sum, List.tail?, List.head?, List.headD, List.tailD,
    List.foldl, List.flatten]
  simp only [String.reduceEq, decide_False, decide_True]
  norm_num

/-- C4 (counterexample): in the laid-out chart for a single root with six leaf
children, the children are wrapped into a row of five and a row of one, and the
third child (index 2, first row) and the sixth child (index 5, second row) are
siblings whose horizontal extents coincide: both are centered at x = 480 with
subtree width 200, so the extents overlap on both sides. -/
theorem calculatePositions_cross_row_overlap :
    ∃ p ∈ getAllNodes (calculatePositions [sixLeafRoot]),
      ∃ (i j : Nat) (ci cj : CNode), i < j ∧
        p.children[i]? = some ci ∧ p.children[j]? = some cj ∧
        ci.id ≠ cj.id ∧
        cj.x - subtreeWidth cj / 2 < ci.x + subtreeWidth ci / 2 ∧
        ci.x - subtreeWidth ci / 2 < cj.x + subtreeWidth cj / 2 := by
  rw [calculatePositions_sixLeafRoot]
  refine ⟨CNode.mk "p" "" "" 0 480 50 false
      [CNode.mk "c0" "" "" 1 0 170 false [],
       CNode.mk "c1" "" "" 1 240 170 false [],
       CNode.mk "c2" "" "" 1 480 170 false [],
       CNode.mk "c3" "" "" 1 720 170 false [],
       CNode.mk "c4" "" "" 1 960 170 false [],
       CNode.mk "c5" "" "" 1 480 290 false []], ?_, 2, 5,
    CNode.mk "c2" "" "" 1 480 170 false [],
    CNode.mk "c5" "" "" 1 480 290 false [], by norm_num, rfl, rfl, ?_, ?_, ?_⟩
  · simp [getAllNodes, allNodesList, allNodes]
  · simp [CNode.id]
  · rw [subtreeWidth, subtreeWidth]
    norm_num [CNode.x]
  · rw [subtreeWidth, subtreeWidth]
    norm_num [CNode.x]

/-- C4 (amended): in the layout computed by `calculatePositions`, for every
node of the resulting forest, any two children that fall in the same wrapped
row (at most five per row) have disjoint horizontal extents - the earlier
child's right edge x + width/2 lies strictly left of the later child's left
edge x - width/2, where width is the subtree width - and the root subtrees
laid out side by side likewise have pairwise disjoint extents.  Siblings in
different wrapped rows may overlap horizontally (see the counterexample); they
are separated vertically instead. -/
theorem calculatePositions_row_and_root_disjoint (ts : List CNode) :
    (∀ p ∈ getAllNodes (calculatePositions ts),
      ∀ row ∈ splitIntoRows p.children, ∀ (i j : Nat) (ci cj : CNode), i < j →
        row[i]? = some ci → row[j]? = some cj →
        ci.x + subtreeWidth ci / 2 < cj.x - subtreeWidth cj / 2) ∧
    (∀ (i j : Nat) (ti tj : CNode), i < j →
      (calculatePositions ts)[i]? = some ti →
      (calculatePositions ts)[j]? = some tj →
      ti.x + subtreeWidth ti / 2 < tj.x - subtreeWidth tj / 2) := by
  constructor
  · exact fun p hp => rowsDisjoint_getAllNodes ts p hp
  · intro i j ti tj hij hi hj
    unfold calculatePositions at hi hj
    exact positionNodes_sep _ 50 ts 0 i j ti tj hij hi hj

/-- Witness for C4: for two side-by-side leaf roots the laid-out extents are
disjoint, instantiated from the root clause of the theorem at roots 0 and 1. -/
theorem calculatePositions_row_and_root_disjoint_witness :
    (CNode.mk "a" "" "" 1 0 170 false []).x +
      subtreeWidth (CNode.mk "a" "" "" 1 0 170 false []) / 2 <
    (CNode.mk "b" "" "" 1 240 170 false []).x -
      subtreeWidth (CNode.mk "b" "" "" 1 240 170 false []) / 2 :=
  (calculatePositions_row_and_root_disjoint [chartLeaf "a", chartLeaf "b"]).2 0 1
    _ _ (by norm_num) (by rw [calculatePositions_pairLeaves]; rfl)
    (by rw [calculatePositions_pairLeaves]; rfl)

end OrgChart
